import Mathlib

/-!
Verification development for the PredictWell browser session/navigation layer.

The development shallowly embeds the JavaScript sources:
  * `src/web/auth.js` — the shared `AUTH` object: localStorage-backed session
    state (`pw_user` / `pw_token`), `navHTML` rendering and `mountNav`;
  * `src/unnamed/part_001` — the page-embedded `PW_AUTH` variant with
    `headerHTML` and `mountHeader` (the IIFE variant, lines 63–112);
  * `src/unnamed/part_000` — the risk-form submit handler's badge
    classification (lines 74–84).

Modelling conventions:
  * JavaScript strings are `List Char` (`Chars`).
  * `localStorage`, as used by the code, touches exactly the two keys
    `pw_user` and `pw_token`; the store is modelled as the pair of those two
    optional entries (`getItem` returns `none` when a key is absent).
  * `JSON.parse` / `JSON.stringify` are modelled by an executable
    recursive-descent parser / serializer over a JSON value type.  Model
    restrictions (documented at the definitions): JSON numbers are integers
    (fractional/exponent numerals are rejected by the parser), `\u` string
    escapes are rejected, literal control characters inside string literals
    are accepted, and the serializer escapes only `"` and `\`.
  * The DOM is a forest of element/text nodes; elements carry tag, id and
    class attributes.  `querySelector` is implemented for the selector forms
    the code uses (descendant chains of tag/class/id simple selectors), with
    document-order (pre-order) first-match semantics.
  * `insertAdjacentHTML` / `innerHTML` receive markup strings; the browser's
    HTML parsing of that markup is modelled by `fragmentOf`, which builds a
    single element whose id/class attributes are the first `id="…"` /
    `class="…"` occurrences scanned from the markup itself, with one child
    element per further `id="…"` occurrence (whitespace text nodes and
    non-id-bearing markup structure are elided).
-/

abbrev Chars := List Char

/-! ## JSON values (the results of `JSON.parse`, plus `undefined`) -/

mutual
/-- A JavaScript value, as produced by `JSON.parse` (plus `undefined`,
which property access on a missing field yields).  Model restriction:
numbers are integers. -/
inductive JSValue where
  | null
  | undefined
  | bool (b : Bool)
  | num (n : Int)
  | str (s : Chars)
  | arr (xs : JSArr)
  | obj (fs : JSObj)
deriving DecidableEq, Repr
/-- A JavaScript array value (list of `JSValue`). -/
inductive JSArr where
  | nil
  | cons (v : JSValue) (xs : JSArr)
deriving DecidableEq, Repr
/-- A JavaScript object value (ordered field list). -/
inductive JSObj where
  | nil
  | cons (k : Chars) (v : JSValue) (fs : JSObj)
deriving DecidableEq, Repr
end

/-- JavaScript truthiness (`!!v`): `null`, `undefined`, `false`, `0`, `""`
are falsy; every array and object is truthy. -/
def truthy : JSValue → Bool
  | .null => false
  | .undefined => false
  | .bool b => b
  | .num n => n != 0
  | .str s => !s.isEmpty
  | .arr _ => true
  | .obj _ => true

/-- First field with the given key (JS object property lookup). -/
def objLookup : JSObj → Chars → Option JSValue
  | .nil, _ => none
  | .cons k v fs, key => if k = key then some v else objLookup fs key

/-- Optional chaining `v?.key`: `undefined` on `null`/`undefined` receivers
and on non-objects / missing fields (no own properties named like a JSON
field exist on the primitives the code touches). -/
def optChain (v : JSValue) (key : Chars) : JSValue :=
  match v with
  | .obj fs => (objLookup fs key).getD .undefined
  | _ => .undefined

/-- Nullish coalescing `v ?? 0` as used in the badge handler: `null` and
`undefined` are replaced by the number `0`. -/
def coalesceZero (v : JSValue) : JSValue :=
  match v with
  | .null => .num 0
  | .undefined => .num 0
  | v => v

/-! ## Serialization: `JSON.stringify` -/

/-- String-body escaping performed by the modelled `JSON.stringify`.
Model restriction: only `"` and `\` are escaped (the real serializer also
escapes control characters). -/
def escapeJ : Chars → Chars
  | [] => []
  | c :: r =>
    if c = '"' then '\\' :: '"' :: escapeJ r
    else if c = '\\' then '\\' :: '\\' :: escapeJ r
    else c :: escapeJ r

/-- Little-endian decimal digits of `m` (fuelled; fuel `m + 1` suffices). -/
def natDigsAux : Nat → Nat → List Nat
  | 0, _ => []
  | f + 1, m => if m = 0 then [] else (m % 10) :: natDigsAux f (m / 10)

/-- The decimal digit character for `d < 10`. -/
def digitChar : Nat → Char
  | 0 => '0' | 1 => '1' | 2 => '2' | 3 => '3' | 4 => '4'
  | 5 => '5' | 6 => '6' | 7 => '7' | 8 => '8' | _ => '9'

/-- Decimal notation of a natural number. -/
def natChars (m : Nat) : Chars :=
  if m = 0 then ['0'] else (natDigsAux (m + 1) m).reverse.map digitChar

/-- Decimal notation of an integer. -/
def intChars (n : Int) : Chars :=
  if n < 0 then '-' :: natChars n.natAbs else natChars n.natAbs

mutual
/-- `JSON.stringify` on the modelled values (`undefined` does not occur in
stored data; it is serialized like `null` to keep the function total). -/
def strV : JSValue → Chars
  | .null => (['n', 'u', 'l', 'l'] : Chars)
  | .undefined => (['n', 'u', 'l', 'l'] : Chars)
  | .bool true => (['t', 'r', 'u', 'e'] : Chars)
  | .bool false => (['f', 'a', 'l', 's', 'e'] : Chars)
  | .num n => intChars n
  | .str s => '"' :: (escapeJ s ++ ['"'])
  | .arr xs => '[' :: (strItems xs ++ [']'])
  | .obj fs => '{' :: (strFields fs ++ ['}'])
/-- Comma-separated serialization of array elements. -/
def strItems : JSArr → Chars
  | .nil => []
  | .cons v .nil => strV v
  | .cons v (.cons w xs) => strV v ++ ',' :: strItems (.cons w xs)
/-- Comma-separated serialization of object fields (`"key":value`). -/
def strFields : JSObj → Chars
  | .nil => []
  | .cons k v .nil => '"' :: (escapeJ k ++ '"' :: ':' :: strV v)
  | .cons k v (.cons k2 w fs) =>
      ('"' :: (escapeJ k ++ '"' :: ':' :: strV v)) ++ ',' :: strFields (.cons k2 w fs)
end

/-! ## Parsing: `JSON.parse` -/

/-- JSON insignificant whitespace. -/
def isWs (c : Char) : Bool := c = ' ' || c = '\n' || c = '\t' || c = '\r'

/-- Skip leading whitespace. -/
def skipWs : Chars → Chars
  | [] => []
  | c :: r => if isWs c then skipWs r else c :: r

/-- Whether the first argument is a leading segment of the second. -/
def startsW : Chars → Chars → Bool
  | [], _ => true
  | _ :: _, [] => false
  | p :: ps, c :: cs => p = c && startsW ps cs

/-- Decimal digit test. -/
def isDigit (c : Char) : Bool := '0' ≤ c && c ≤ '9'

/-- Split off the longest leading run of decimal digits. -/
def takeDigits : Chars → Chars × Chars
  | [] => ([], [])
  | c :: r =>
    if isDigit c then
      let p := takeDigits r
      (c :: p.1, p.2)
    else ([], c :: r)

/-- Numeric value of a big-endian digit-character list. -/
def digitsVal (ds : Chars) : Nat :=
  ds.foldl (fun acc c => acc * 10 + (c.toNat - '0'.toNat)) 0

/-- Shared body of the number parser: digits (at least one), rejecting a
following fractional part or exponent, with the sign applied per `neg`. -/
def parseNumCore (neg : Bool) (s : Chars) : Option (Int × Chars) :=
  if (takeDigits s).1 = [] then none
  else if (takeDigits s).2.head? = some '.' then none
  else if (takeDigits s).2.head? = some 'e' then none
  else if (takeDigits s).2.head? = some 'E' then none
  else some
    (if neg then -(digitsVal (takeDigits s).1 : Int) else (digitsVal (takeDigits s).1 : Int),
     (takeDigits s).2)

/-- Parse a JSON number.  Model restriction: only integer numerals; a
fractional part or exponent makes the numeral (hence the whole parse)
fail. -/
def parseNum (s : Chars) : Option (Int × Chars) :=
  if s.head? = some '-' then parseNumCore true (s.drop 1) else parseNumCore false s

/-- Decode one escape character (the letter after a backslash).  Model
restriction: `\u` escapes are not supported. -/
def escChar (e : Char) : Option Char :=
  if e = '"' then some '"'
  else if e = '\\' then some '\\'
  else if e = '/' then some '/'
  else if e = 'n' then some '\n'
  else if e = 't' then some '\t'
  else if e = 'r' then some '\r'
  else if e = 'b' then some '\x08'
  else if e = 'f' then some '\x0c'
  else none

/-- Parse a JSON string body (after the opening quote), returning the
decoded content and the remainder after the closing quote.  Model
restrictions: `\u` escapes are rejected; literal control characters are
accepted. -/
def parseStrBody : Chars → Option (Chars × Chars)
  | [] => none
  | c :: r =>
    if c = '"' then some ([], r)
    else if c = '\\' then
      match r with
      | [] => none
      | e :: r2 =>
        match escChar e with
        | some d => (parseStrBody r2).map fun p => (d :: p.1, p.2)
        | none => none
    else (parseStrBody r).map fun p => (c :: p.1, p.2)

def nullLit : Chars := ['n', 'u', 'l', 'l']
def trueLit : Chars := ['t', 'r', 'u', 'e']
def falseLit : Chars := ['f', 'a', 'l', 's', 'e']

mutual
/-- Recursive-descent JSON value parser (fuelled; every recursive call
spends one unit, so fuel `length + 1` always suffices for an accepting
run). -/
def parseVal : Nat → Chars → Option (JSValue × Chars)
  | 0, _ => none
  | f + 1, s0 =>
    if startsW nullLit (skipWs s0) then some (.null, (skipWs s0).drop 4)
    else if startsW trueLit (skipWs s0) then some (.bool true, (skipWs s0).drop 4)
    else if startsW falseLit (skipWs s0) then some (.bool false, (skipWs s0).drop 5)
    else if (skipWs s0).head? = some '"' then
      (parseStrBody ((skipWs s0).drop 1)).map fun p => (.str p.1, p.2)
    else if (skipWs s0).head? = some '[' then
      if (skipWs ((skipWs s0).drop 1)).head? = some ']' then
        some (.arr .nil, (skipWs ((skipWs s0).drop 1)).drop 1)
      else (parseItems f (skipWs ((skipWs s0).drop 1))).map fun p => (.arr p.1, p.2)
    else if (skipWs s0).head? = some '{' then
      if (skipWs ((skipWs s0).drop 1)).head? = some '}' then
        some (.obj .nil, (skipWs ((skipWs s0).drop 1)).drop 1)
      else (parseFields f (skipWs ((skipWs s0).drop 1))).map fun p => (.obj p.1, p.2)
    else (parseNum (skipWs s0)).map fun p => (.num p.1, p.2)
/-- Parse a nonempty comma-separated item list followed by `]`. -/
def parseItems : Nat → Chars → Option (JSArr × Chars)
  | 0, _ => none
  | f + 1, s =>
    (parseVal f s).bind fun vr =>
      if (skipWs vr.2).head? = some ',' then
        (parseItems f ((skipWs vr.2).drop 1)).map fun p => (.cons vr.1 p.1, p.2)
      else if (skipWs vr.2).head? = some ']' then some (.cons vr.1 .nil, (skipWs vr.2).drop 1)
      else none
/-- Parse a nonempty comma-separated `"key":value` list followed by `}`. -/
def parseFields : Nat → Chars → Option (JSObj × Chars)
  | 0, _ => none
  | f + 1, s =>
    if (skipWs s).head? = some '"' then
      (parseStrBody ((skipWs s).drop 1)).bind fun kr =>
        if (skipWs kr.2).head? = some ':' then
          (parseVal f ((skipWs kr.2).drop 1)).bind fun vr =>
            if (skipWs vr.2).head? = some ',' then
              (parseFields f ((skipWs vr.2).drop 1)).map fun p => (.cons kr.1 vr.1 p.1, p.2)
            else if (skipWs vr.2).head? = some '}' then
              some (.cons kr.1 vr.1 .nil, (skipWs vr.2).drop 1)
            else none
        else none
    else none
end

/-- `JSON.parse`: parse a complete value; trailing non-whitespace input
(or any parse failure) is a failure, modelled as `none` — the JavaScript
original throws a `SyntaxError` there. -/
def jsonParse (s : Chars) : Option JSValue :=
  match parseVal (s.length + 1) s with
  | some (v, rest) => if skipWs rest = [] then some v else none
  | none => none


/-! ## Round-trip: parsing a serialized value -/

mutual
/-- Normalization applied by a stringify/parse round trip: `undefined`
(serialized as `null`) comes back as `null`; everything else is preserved. -/
def normU : JSValue → JSValue
  | .null => .null
  | .undefined => .null
  | .bool b => .bool b
  | .num n => .num n
  | .str s => .str s
  | .arr xs => .arr (normA xs)
  | .obj fs => .obj (normO fs)
/-- Round-trip normalization on arrays. -/
def normA : JSArr → JSArr
  | .nil => .nil
  | .cons v xs => .cons (normU v) (normA xs)
/-- Round-trip normalization on objects. -/
def normO : JSObj → JSObj
  | .nil => .nil
  | .cons k v fs => .cons k (normU v) (normO fs)
end

theorem skipWs_cons_of (c : Char) (t : Chars) (h : isWs c = false) :
    skipWs (c :: t) = c :: t := by
  simp [skipWs, h]

theorem startsW_self_append (p r : Chars) : startsW p (p ++ r) = true := by
  induction p with
  | nil => rfl
  | cons c p ih => simp [startsW, ih]

theorem parseStrBody_lit (c : Char) (r : Chars) (h1 : c ≠ '"') (h2 : c ≠ '\\') :
    parseStrBody (c :: r) = (parseStrBody r).map fun p => (c :: p.1, p.2) := by
  rw [parseStrBody.eq_def]
  simp [h1, h2]

theorem parseStrBody_esc (e d : Char) (r : Chars) (h : escChar e = some d) :
    parseStrBody ('\\' :: e :: r) = (parseStrBody r).map fun p => (d :: p.1, p.2) := by
  rw [parseStrBody.eq_def]
  simp [h]

theorem parseStrBody_quote (r : Chars) :
    parseStrBody ('"' :: r) = some ([], r) := by
  rw [parseStrBody.eq_def]
  simp

theorem parseStrBody_escapeJ (s : Chars) : ∀ rest : Chars,
    parseStrBody (escapeJ s ++ '"' :: rest) = some (s, rest) := by
  induction s with
  | nil => intro rest; simp [escapeJ, parseStrBody_quote]
  | cons c s ih =>
    intro rest
    by_cases h1 : c = '"'
    · subst h1
      simp [escapeJ, parseStrBody_esc '"' '"' _ rfl, ih rest]
    · by_cases h2 : c = '\\'
      · subst h2
        simp [escapeJ, parseStrBody_esc '\\' '\\' _ rfl, ih rest]
      · simp [escapeJ, h1, h2, parseStrBody_lit c _ h1 h2, ih rest]

def digitCharList : Chars := ['0', '1', '2', '3', '4', '5', '6', '7', '8', '9']

theorem digitChar_mem (d : Nat) : digitChar d ∈ digitCharList := by
  match d with
  | 0 | 1 | 2 | 3 | 4 | 5 | 6 | 7 | 8 => decide
  | d + 9 => exact (by decide : ('9' : Char) ∈ digitCharList)

theorem digitChar_val : ∀ d : Nat, d < 10 → (digitChar d).toNat - '0'.toNat = d := by
  decide

theorem natDigsAux_digits : ∀ f m d : Nat, d ∈ natDigsAux f m → d < 10 := by
  intro f
  induction f with
  | zero => intro m d h; simp [natDigsAux] at h
  | succ g ih =>
    intro m d h
    rw [natDigsAux] at h
    by_cases hm : m = 0
    · simp [hm] at h
    · rw [if_neg hm] at h
      rcases List.mem_cons.1 h with h1 | h2
      · omega
      · exact ih _ _ h2

theorem foldl_natDigsAux : ∀ f m a : Nat, m < f →
    List.foldl (fun acc c => acc * 10 + (c.toNat - '0'.toNat)) a
      ((natDigsAux f m).reverse.map digitChar)
    = a * 10 ^ (natDigsAux f m).length + m := by
  intro f
  induction f with
  | zero => intro m a h; omega
  | succ g ih =>
    intro m a h
    by_cases hm : m = 0
    · subst hm; simp [natDigsAux]
    · rw [natDigsAux, if_neg hm]
      have hdiv : m / 10 < g := by
        have h1 : m / 10 < m := Nat.div_lt_self (by omega) (by norm_num)
        omega
      have hmod : m % 10 < 10 := Nat.mod_lt _ (by norm_num)
      simp only [List.reverse_cons, List.map_append, List.map_cons, List.map_nil,
        List.foldl_append, List.foldl_cons, List.foldl_nil, List.length_cons]
      rw [ih (m / 10) a hdiv, digitChar_val _ hmod]
      calc (a * 10 ^ (natDigsAux g (m / 10)).length + m / 10) * 10 + m % 10
          = a * (10 ^ (natDigsAux g (m / 10)).length * 10) + (10 * (m / 10) + m % 10) := by ring
        _ = a * 10 ^ ((natDigsAux g (m / 10)).length + 1) + m := by
            rw [Nat.div_add_mod, pow_succ]

theorem digitsVal_natChars (m : Nat) : digitsVal (natChars m) = m := by
  by_cases hm : m = 0
  · subst hm; rfl
  · rw [natChars, if_neg hm]
    have := foldl_natDigsAux (m + 1) m 0 (by omega)
    simpa [digitsVal] using this

theorem natChars_mem_digits (m : Nat) : ∀ c ∈ natChars m, c ∈ digitCharList := by
  intro c hc
  by_cases hm : m = 0
  · subst hm; simp [natChars] at hc; subst hc; decide
  · rw [natChars, if_neg hm] at hc
    rcases List.mem_map.1 (List.mem_reverse.1 ((List.mem_reverse).2 hc)) with ⟨d, _, hd2⟩
    exact hd2 ▸ digitChar_mem d

theorem natChars_ne_nil (m : Nat) : natChars m ≠ [] := by
  by_cases hm : m = 0
  · subst hm; simp [natChars]
  · rw [natChars, if_neg hm, natDigsAux, if_neg hm]
    simp

theorem digit_facts : ∀ c ∈ digitCharList, isDigit c = true ∧ isWs c = false ∧
    c ≠ 'n' ∧ c ≠ 't' ∧ c ≠ 'f' ∧ c ≠ '"' ∧ c ≠ '[' ∧ c ≠ '{' ∧ c ≠ ']' ∧ c ≠ ',' ∧
    c ≠ '}' ∧ c ≠ '-' := by
  decide

theorem takeDigits_append (ds : Chars) : ∀ rest : Chars,
    (∀ c ∈ ds, isDigit c = true) → (∀ c, rest.head? = some c → isDigit c = false) →
    takeDigits (ds ++ rest) = (ds, rest) := by
  induction ds with
  | nil =>
    intro rest _ hrest
    match rest with
    | [] => rfl
    | c :: r => simp [takeDigits, hrest c rfl]
  | cons c ds ih =>
    intro rest hds hrest
    have hc : isDigit c = true := hds c (List.mem_cons_self c ds)
    have ih' := ih rest (fun x hx => hds x (List.mem_cons_of_mem c hx)) hrest
    simp only [List.cons_append, takeDigits, hc, if_pos]
    rw [show List.append ds rest = ds ++ rest from rfl, ih']

/-- Characters that may legitimately follow a serialized value inside a
larger serialized term (or end the input). -/
def delimOk : Chars → Bool
  | [] => true
  | c :: _ => c = ',' || c = ']' || c = '}'

theorem delimOk_facts (rest : Chars) (h : delimOk rest = true) :
    ¬(rest.head? = some '.') ∧ ¬(rest.head? = some 'e') ∧ ¬(rest.head? = some 'E') ∧
    (∀ c, rest.head? = some c → isDigit c = false) := by
  match rest with
  | [] =>
    refine ⟨by simp, by simp, by simp, fun c hc => by simp at hc⟩
  | b :: r =>
    simp only [delimOk] at h
    have hb : b = ',' ∨ b = ']' ∨ b = '}' := by
      rcases Bool.or_eq_true_iff.1 h with h' | h'
      · rcases Bool.or_eq_true_iff.1 h' with h'' | h''
        · exact Or.inl (by simpa using h'')
        · exact Or.inr (Or.inl (by simpa using h''))
      · exact Or.inr (Or.inr (by simpa using h'))
    rcases hb with rfl | rfl | rfl <;>
      refine ⟨by simp, by simp, by simp, fun c hc => ?_⟩ <;>
      · have hcb := (by simpa using hc : _ = c)
        subst hcb
        decide

theorem parseNumCore_natChars (neg : Bool) (m : Nat) (rest : Chars) (h : delimOk rest = true) :
    parseNumCore neg (natChars m ++ rest)
      = some (if neg then -(m : Int) else (m : Int), rest) := by
  have h1 := takeDigits_append (natChars m) rest
    (fun c hc => (digit_facts c (natChars_mem_digits m c hc)).1)
    (delimOk_facts rest h).2.2.2
  obtain ⟨hd1, hd2, hd3, _⟩ := delimOk_facts rest h
  rw [parseNumCore, h1]
  rw [if_neg (natChars_ne_nil m), if_neg hd1, if_neg hd2, if_neg hd3, digitsVal_natChars]

theorem parseNum_intChars (n : Int) (rest : Chars) (h : delimOk rest = true) :
    parseNum (intChars n ++ rest) = some (n, rest) := by
  obtain ⟨c, t, hct⟩ : ∃ c t, natChars n.natAbs = c :: t := by
    match hh : natChars n.natAbs with
    | [] => exact absurd hh (natChars_ne_nil _)
    | c :: t => exact ⟨c, t, rfl⟩
  have hcd := natChars_mem_digits n.natAbs c (by rw [hct]; exact List.mem_cons_self _ _)
  have hcm : c ≠ '-' := by
    obtain ⟨-, -, -, -, -, -, -, -, -, -, -, hm⟩ := digit_facts c hcd
    exact hm
  by_cases hn : n < 0
  · rw [intChars, if_pos hn]
    rw [show ('-' :: natChars n.natAbs) ++ rest = '-' :: (natChars n.natAbs ++ rest) from rfl]
    rw [parseNum, if_pos (by simp)]
    simp only [List.drop_succ_cons, List.drop_zero]
    rw [parseNumCore_natChars true n.natAbs rest h]
    have he : (if true then -((n.natAbs : Nat) : Int) else ((n.natAbs : Nat) : Int)) = n := by
      show -((n.natAbs : Nat) : Int) = n
      omega
    rw [he]
  · rw [intChars, if_neg hn]
    rw [parseNum, if_neg (by
      rw [hct]
      simp only [List.cons_append, List.head?_cons, Option.some.injEq]
      exact hcm)]
    rw [parseNumCore_natChars false n.natAbs rest h]
    have he : (if false then -((n.natAbs : Nat) : Int) else ((n.natAbs : Nat) : Int)) = n := by
      show ((n.natAbs : Nat) : Int) = n
      omega
    rw [he]

theorem startsW_ne (p c : Char) (ps cs : Chars) (h : ¬(p = c)) :
    startsW (p :: ps) (c :: cs) = false := by
  simp [startsW, h]

theorem strV_ne_nil (v : JSValue) : strV v ≠ [] := by
  match v with
  | .null | .undefined | .bool true | .bool false => simp [strV]
  | .num n =>
    rw [strV, intChars]
    by_cases hn : n < 0
    · rw [if_pos hn]; simp
    · rw [if_neg hn]; exact natChars_ne_nil _
  | .str s | .arr xs | .obj fs => simp [strV]

theorem strV_head_spec (v : JSValue) : ∃ c t, strV v = c :: t ∧ isWs c = false ∧
    c ≠ ']' ∧ c ≠ ',' ∧ c ≠ '}' := by
  match v with
  | .null => exact ⟨'n', _, rfl, by decide, by decide, by decide, by decide⟩
  | .undefined => exact ⟨'n', _, rfl, by decide, by decide, by decide, by decide⟩
  | .bool true => exact ⟨'t', _, rfl, by decide, by decide, by decide, by decide⟩
  | .bool false => exact ⟨'f', _, rfl, by decide, by decide, by decide, by decide⟩
  | .str s => exact ⟨'"', _, rfl, by decide, by decide, by decide, by decide⟩
  | .arr xs => exact ⟨'[', _, rfl, by decide, by decide, by decide, by decide⟩
  | .obj fs => exact ⟨'{', _, rfl, by decide, by decide, by decide, by decide⟩
  | .num n =>
    rw [strV, intChars]
    by_cases hn : n < 0
    · rw [if_pos hn]
      exact ⟨'-', _, rfl, by decide, by decide, by decide, by decide⟩
    · rw [if_neg hn]
      obtain ⟨c, t, hct⟩ : ∃ c t, natChars n.natAbs = c :: t := by
        match hh : natChars n.natAbs with
        | [] => exact absurd hh (natChars_ne_nil _)
        | c :: t => exact ⟨c, t, rfl⟩
      have hcd := natChars_mem_digits n.natAbs c (by rw [hct]; exact List.mem_cons_self _ _)
      obtain ⟨_, hws, _, _, _, _, _, _, hr1, hr2, hr3, _⟩ := digit_facts c hcd
      exact ⟨c, t, hct, hws, hr1, hr2, hr3⟩

theorem intChars_head_spec (n : Int) : ∃ c t, intChars n = c :: t ∧ isWs c = false ∧
    ¬('n' = c) ∧ ¬('t' = c) ∧ ¬('f' = c) ∧ ¬(c = '"') ∧ ¬(c = '[') ∧ ¬(c = '{') := by
  rw [intChars]
  by_cases hn : n < 0
  · rw [if_pos hn]
    exact ⟨'-', _, rfl, by decide, by decide, by decide, by decide, by decide, by decide,
      by decide⟩
  · rw [if_neg hn]
    obtain ⟨c, t, hct⟩ : ∃ c t, natChars n.natAbs = c :: t := by
      match hh : natChars n.natAbs with
      | [] => exact absurd hh (natChars_ne_nil _)
      | c :: t => exact ⟨c, t, rfl⟩
    have hcd := natChars_mem_digits n.natAbs c (by rw [hct]; exact List.mem_cons_self _ _)
    obtain ⟨_, hws, hn1, hn2, hn3, hn4, hn5, hn6, _⟩ := digit_facts c hcd
    exact ⟨c, t, hct, hws, fun h => hn1 h.symm, fun h => hn2 h.symm, fun h => hn3 h.symm,
      hn4, hn5, hn6⟩

theorem startsW_lit4 (a b c d : Char) (rest : Chars) :
    startsW [a, b, c, d] (a :: b :: c :: d :: rest) = true := by
  simp [startsW]

theorem startsW_lit5 (a b c d e : Char) (rest : Chars) :
    startsW [a, b, c, d, e] (a :: b :: c :: d :: e :: rest) = true := by
  simp [startsW]

theorem head_ne (a b : Char) (t : Chars) (h : ¬(a = b)) : ¬((a :: t).head? = some b) := by
  simp only [List.head?_cons, Option.some.injEq]
  exact h

theorem parseRT : ∀ f : Nat,
    (∀ (v : JSValue) (rest : Chars), (strV v).length < f → delimOk rest = true →
       parseVal f (strV v ++ rest) = some (normU v, rest))
  ∧ (∀ (xs : JSArr) (rest : Chars), xs ≠ .nil → (strItems xs).length + 1 < f →
       parseItems f (strItems xs ++ ']' :: rest) = some (normA xs, rest))
  ∧ (∀ (fs : JSObj) (rest : Chars), fs ≠ .nil → (strFields fs).length + 1 < f →
       parseFields f (strFields fs ++ '}' :: rest) = some (normO fs, rest)) := by
  intro f
  induction f with
  | zero =>
    exact ⟨fun v rest h _ => absurd h (by omega), fun xs rest _ h => absurd h (by omega),
      fun fs rest _ h => absurd h (by omega)⟩
  | succ g ih =>
    obtain ⟨ihV, ihI, ihF⟩ := ih
    refine ⟨?_, ?_, ?_⟩
    · intro v rest hlen hdel
      match v with
      | .null =>
        simp only [strV, nullLit, trueLit, falseLit, List.cons_append, List.nil_append, parseVal]
        rw [skipWs_cons_of _ _ (by decide)]
        rw [if_pos (startsW_lit4 'n' 'u' 'l' 'l' rest)]
        simp [normU]
      | .undefined =>
        simp only [strV, nullLit, trueLit, falseLit, List.cons_append, List.nil_append, parseVal]
        rw [skipWs_cons_of _ _ (by decide)]
        rw [if_pos (startsW_lit4 'n' 'u' 'l' 'l' rest)]
        simp [normU]
      | .bool true =>
        simp only [strV, nullLit, trueLit, falseLit, List.cons_append, List.nil_append, parseVal]
        rw [skipWs_cons_of _ _ (by decide)]
        rw [if_neg (by rw [startsW_ne 'n' 't' _ _ (by decide)]; exact Bool.false_ne_true)]
        rw [if_pos (startsW_lit4 't' 'r' 'u' 'e' rest)]
        simp [normU]
      | .bool false =>
        simp only [strV, nullLit, trueLit, falseLit, List.cons_append, List.nil_append, parseVal]
        rw [skipWs_cons_of _ _ (by decide)]
        rw [if_neg (by rw [startsW_ne 'n' 'f' _ _ (by decide)]; exact Bool.false_ne_true)]
        rw [if_neg (by rw [startsW_ne 't' 'f' _ _ (by decide)]; exact Bool.false_ne_true)]
        rw [if_pos (startsW_lit5 'f' 'a' 'l' 's' 'e' rest)]
        simp [normU]
      | .num n =>
        obtain ⟨c, t, hct, hws, h1, h2, h3, h4, h5, h6⟩ := intChars_head_spec n
        simp only [strV, nullLit, trueLit, falseLit, parseVal]
        rw [hct]
        simp only [List.cons_append]
        rw [skipWs_cons_of _ _ hws]
        rw [if_neg (by rw [startsW_ne 'n' c _ _ h1]; exact Bool.false_ne_true)]
        rw [if_neg (by rw [startsW_ne 't' c _ _ h2]; exact Bool.false_ne_true)]
        rw [if_neg (by rw [startsW_ne 'f' c _ _ h3]; exact Bool.false_ne_true)]
        rw [if_neg (head_ne c '"' _ h4)]
        rw [if_neg (head_ne c '[' _ h5)]
        rw [if_neg (head_ne c '{' _ h6)]
        rw [show c :: (t ++ rest) = (c :: t) ++ rest from rfl, ← hct]
        rw [parseNum_intChars n rest hdel]
        simp [normU]
      | .str s =>
        simp only [strV, nullLit, trueLit, falseLit, List.cons_append, List.nil_append,
          List.append_assoc, parseVal]
        rw [skipWs_cons_of _ _ (by decide)]
        rw [if_neg (by rw [startsW_ne 'n' '"' _ _ (by decide)]; exact Bool.false_ne_true)]
        rw [if_neg (by rw [startsW_ne 't' '"' _ _ (by decide)]; exact Bool.false_ne_true)]
        rw [if_neg (by rw [startsW_ne 'f' '"' _ _ (by decide)]; exact Bool.false_ne_true)]
        rw [if_pos (show ('"' :: (escapeJ s ++ '"' :: rest)).head? = some '"' from rfl)]
        simp only [List.drop_succ_cons, List.drop_zero]
        rw [parseStrBody_escapeJ]
        simp [normU]
      | .arr .nil =>
        simp only [strV, strItems, nullLit, trueLit, falseLit, List.cons_append,
          List.nil_append, parseVal]
        rw [skipWs_cons_of _ _ (by decide)]
        rw [if_neg (by rw [startsW_ne 'n' '[' _ _ (by decide)]; exact Bool.false_ne_true)]
        rw [if_neg (by rw [startsW_ne 't' '[' _ _ (by decide)]; exact Bool.false_ne_true)]
        rw [if_neg (by rw [startsW_ne 'f' '[' _ _ (by decide)]; exact Bool.false_ne_true)]
        rw [if_neg (head_ne '[' '"' _ (by decide))]
        rw [if_pos (show ('[' :: ']' :: rest).head? = some '[' from rfl)]
        simp only [List.drop_succ_cons, List.drop_zero]
        rw [skipWs_cons_of _ _ (by decide)]
        rw [if_pos (show (']' :: rest).head? = some ']' from rfl)]
        simp [normU, normA]
      | .arr (.cons v xs) =>
        obtain ⟨c, t, hct, hws, hb1, hb2, hb3⟩ := strV_head_spec v
        have hfuel : (strItems (.cons v xs)).length + 1 < g := by
          simp only [strV, List.length_cons, List.length_append, List.length_nil] at hlen
          omega
        have hT : ∃ T, strItems (.cons v xs) ++ ']' :: rest = c :: T := by
          match xs with
          | .nil => exact ⟨t ++ ']' :: rest, by simp [strItems, hct]⟩
          | .cons w ys =>
            refine ⟨t ++ (',' :: strItems (.cons w ys)) ++ ']' :: rest, ?_⟩
            simp [strItems, hct]
        obtain ⟨T, hT⟩ := hT
        simp only [strV, nullLit, trueLit, falseLit, List.cons_append, List.nil_append,
          List.append_assoc, parseVal]
        rw [skipWs_cons_of _ _ (by decide)]
        rw [if_neg (by rw [startsW_ne 'n' '[' _ _ (by decide)]; exact Bool.false_ne_true)]
        rw [if_neg (by rw [startsW_ne 't' '[' _ _ (by decide)]; exact Bool.false_ne_true)]
        rw [if_neg (by rw [startsW_ne 'f' '[' _ _ (by decide)]; exact Bool.false_ne_true)]
        rw [if_neg (head_ne '[' '"' _ (by decide))]
        rw [if_pos (show ('[' :: (strItems (.cons v xs) ++ ']' :: rest)).head? = some '['
              from rfl)]
        simp only [List.drop_succ_cons, List.drop_zero]
        rw [hT, skipWs_cons_of _ _ hws]
        rw [if_neg (head_ne c ']' _ hb1)]
        rw [← hT]
        rw [ihI (.cons v xs) rest (by simp) hfuel]
        simp [normU]
      | .obj .nil =>
        simp only [strV, strFields, nullLit, trueLit, falseLit, List.cons_append,
          List.nil_append, parseVal]
        rw [skipWs_cons_of _ _ (by decide)]
        rw [if_neg (by rw [startsW_ne 'n' '{' _ _ (by decide)]; exact Bool.false_ne_true)]
        rw [if_neg (by rw [startsW_ne 't' '{' _ _ (by decide)]; exact Bool.false_ne_true)]
        rw [if_neg (by rw [startsW_ne 'f' '{' _ _ (by decide)]; exact Bool.false_ne_true)]
        rw [if_neg (head_ne '{' '"' _ (by decide))]
        rw [if_neg (head_ne '{' '[' _ (by decide))]
        rw [if_pos (show ('{' :: '}' :: rest).head? = some '{' from rfl)]
        simp only [List.drop_succ_cons, List.drop_zero]
        rw [skipWs_cons_of _ _ (by decide)]
        rw [if_pos (show ('}' :: rest).head? = some '}' from rfl)]
        simp [normU, normO]
      | .obj (.cons k v fs) =>
        have hfuel : (strFields (.cons k v fs)).length + 1 < g := by
          simp only [strV, List.length_cons, List.length_append, List.length_nil] at hlen
          omega
        have hT : ∃ T, strFields (.cons k v fs) ++ '}' :: rest = '"' :: T := by
          match fs with
          | .nil => exact ⟨(escapeJ k ++ '"' :: ':' :: strV v) ++ '}' :: rest, by
              simp [strFields]⟩
          | .cons k2 w gs =>
            refine ⟨(escapeJ k ++ '"' :: ':' :: strV v) ++ (',' :: strFields (.cons k2 w gs))
              ++ '}' :: rest, ?_⟩
            simp [strFields]
        obtain ⟨T, hT⟩ := hT
        simp only [strV, nullLit, trueLit, falseLit, List.cons_append, List.nil_append,
          List.append_assoc, parseVal]
        rw [skipWs_cons_of _ _ (by decide)]
        rw [if_neg (by rw [startsW_ne 'n' '{' _ _ (by decide)]; exact Bool.false_ne_true)]
        rw [if_neg (by rw [startsW_ne 't' '{' _ _ (by decide)]; exact Bool.false_ne_true)]
        rw [if_neg (by rw [startsW_ne 'f' '{' _ _ (by decide)]; exact Bool.false_ne_true)]
        rw [if_neg (head_ne '{' '"' _ (by decide))]
        rw [if_neg (head_ne '{' '[' _ (by decide))]
        rw [if_pos (show ('{' :: (strFields (.cons k v fs) ++ '}' :: rest)).head? = some '{'
              from rfl)]
        simp only [List.drop_succ_cons, List.drop_zero]
        rw [hT, skipWs_cons_of _ _ (by decide)]
        rw [if_neg (head_ne '"' '}' _ (by decide))]
        rw [← hT]
        rw [ihF (.cons k v fs) rest (by simp) hfuel]
        simp [normU]
    · intro xs rest hne hlen
      match xs with
      | .nil => exact absurd rfl hne
      | .cons v xs' =>
        have hv1 : 1 ≤ (strV v).length :=
          List.length_pos.2 (strV_ne_nil v)
        rw [parseItems]
        match xs' with
        | .nil =>
          have hfuel : (strV v).length < g := by
            simp only [strItems] at hlen
            omega
          rw [show strItems (.cons v .nil) ++ ']' :: rest = strV v ++ ']' :: rest from by
            simp [strItems]]
          rw [ihV v (']' :: rest) hfuel (show delimOk (']' :: rest) = true from rfl)]
          rw [Option.some_bind]
          rw [skipWs_cons_of _ _ (by decide)]
          rw [if_neg (head_ne ']' ',' _ (by decide))]
          rw [if_pos (show (']' :: rest).head? = some ']' from rfl)]
          simp [normA]
        | .cons w ys =>
          have hlen' : (strV v).length + 1 + ((strItems (.cons w ys)).length + 1) < g + 1 := by
            simp only [strItems, List.length_append, List.length_cons] at hlen
            omega
          have hfuel1 : (strV v).length < g := by omega
          have hfuel2 : (strItems (.cons w ys)).length + 1 < g := by omega
          rw [show strItems (.cons v (.cons w ys)) ++ ']' :: rest
                = strV v ++ ',' :: (strItems (.cons w ys) ++ ']' :: rest) from by
            simp [strItems]]
          rw [ihV v (',' :: (strItems (.cons w ys) ++ ']' :: rest)) hfuel1
            (show delimOk (',' :: (strItems (.cons w ys) ++ ']' :: rest)) = true from rfl)]
          rw [Option.some_bind]
          rw [skipWs_cons_of _ _ (by decide)]
          rw [if_pos (show (',' :: (strItems (.cons w ys) ++ ']' :: rest)).head? = some ','
                from rfl)]
          simp only [List.drop_succ_cons, List.drop_zero]
          rw [ihI (.cons w ys) rest (by simp) hfuel2]
          simp [normA]
    · intro fs rest hne hlen
      match fs with
      | .nil => exact absurd rfl hne
      | .cons k v fs' =>
        have hv1 : 1 ≤ (strV v).length :=
          List.length_pos.2 (strV_ne_nil v)
        rw [parseFields]
        match fs' with
        | .nil =>
          have hfuel : (strV v).length < g := by
            simp only [strFields, List.length_cons, List.length_append] at hlen
            omega
          rw [show strFields (.cons k v .nil) ++ '}' :: rest
                = '"' :: (escapeJ k ++ '"' :: ':' :: (strV v ++ '}' :: rest)) from by
            simp [strFields]]
          rw [skipWs_cons_of _ _ (by decide)]
          rw [if_pos (show ('"' :: (escapeJ k ++ '"' :: ':' :: (strV v ++ '}' :: rest))).head?
                = some '"' from rfl)]
          simp only [List.drop_succ_cons, List.drop_zero]
          rw [parseStrBody_escapeJ]
          rw [Option.some_bind]
          rw [skipWs_cons_of _ _ (by decide)]
          rw [if_pos (show (':' :: (strV v ++ '}' :: rest)).head? = some ':' from rfl)]
          simp only [List.drop_succ_cons, List.drop_zero]
          rw [ihV v ('}' :: rest) hfuel (show delimOk ('}' :: rest) = true from rfl)]
          rw [Option.some_bind]
          rw [skipWs_cons_of _ _ (by decide)]
          rw [if_neg (head_ne '}' ',' _ (by decide))]
          rw [if_pos (show ('}' :: rest).head? = some '}' from rfl)]
          simp [normO]
        | .cons k2 w gs =>
          have hlen' : (strFields (.cons k2 w gs)).length + 1 < g := by
            simp only [strFields, List.length_cons, List.length_append] at hlen
            omega
          have hfuel1 : (strV v).length < g := by
            simp only [strFields, List.length_cons, List.length_append] at hlen
            omega
          rw [show strFields (.cons k v (.cons k2 w gs)) ++ '}' :: rest
                = '"' :: (escapeJ k ++ '"' :: ':' ::
                    (strV v ++ ',' :: (strFields (.cons k2 w gs) ++ '}' :: rest))) from by
            simp [strFields]]
          rw [skipWs_cons_of _ _ (by decide)]
          rw [if_pos (show ('"' :: (escapeJ k ++ '"' :: ':' ::
                (strV v ++ ',' :: (strFields (.cons k2 w gs) ++ '}' :: rest)))).head?
                = some '"' from rfl)]
          simp only [List.drop_succ_cons, List.drop_zero]
          rw [parseStrBody_escapeJ]
          rw [Option.some_bind]
          rw [skipWs_cons_of _ _ (by decide)]
          rw [if_pos (show (':' :: (strV v ++ ',' ::
                (strFields (.cons k2 w gs) ++ '}' :: rest))).head? = some ':' from rfl)]
          simp only [List.drop_succ_cons, List.drop_zero]
          rw [ihV v (',' :: (strFields (.cons k2 w gs) ++ '}' :: rest)) hfuel1
            (show delimOk (',' :: (strFields (.cons k2 w gs) ++ '}' :: rest)) = true from rfl)]
          rw [Option.some_bind]
          rw [skipWs_cons_of _ _ (by decide)]
          rw [if_pos (show (',' :: (strFields (.cons k2 w gs) ++ '}' :: rest)).head? = some ','
                from rfl)]
          simp only [List.drop_succ_cons, List.drop_zero]
          rw [ihF (.cons k2 w gs) rest (by simp) hlen']
          simp [normO]

/-- A serialized value parses back (to its round-trip normalization). -/
theorem jsonParse_strV (v : JSValue) : jsonParse (strV v) = some (normU v) := by
  rw [jsonParse]
  have h := (parseRT ((strV v).length + 1)).1 v [] (by omega) (by decide)
  rw [List.append_nil] at h
  rw [h]
  rfl

/-! ## Credential store and the AUTH session helpers (auth.js 16–23,
part_001 63–70; both variants define the identical accessor object) -/

/-- The browser `localStorage`, restricted to the only two keys the code
touches: `pw_user` (`user?`) and `pw_token` (`token?`).  `none` models an
absent key (`getItem` returns `null`). -/
structure Store where
  user? : Option Chars
  token? : Option Chars
deriving DecidableEq, Repr

/-- The raw string handed to `JSON.parse` by the `user` getter:
`localStorage.getItem(this.keyUser) || 'null'` — an absent key (`null`)
and a stored empty string are both falsy, so both fall back to `'null'`. -/
def AUTH.userRaw (st : Store) : Chars :=
  if (st.user?.getD []).isEmpty then nullLit else st.user?.getD []

/-- The result of `JSON.parse` inside the `user` getter before the
`catch`: `Except.error` models a thrown `SyntaxError`. -/
def AUTH.userParsed (st : Store) : Except Unit JSValue :=
  match jsonParse (AUTH.userRaw st) with
  | some v => Except.ok v
  | none => Except.error ()

/-- The `user` getter (auth.js line 19):
`try { return JSON.parse(getItem(keyUser) || 'null') } catch { return null }`. -/
def AUTH.user (st : Store) : JSValue :=
  match AUTH.userParsed st with
  | Except.ok v => v
  | Except.error _ => JSValue.null

/-- The `token` getter (auth.js line 20): `localStorage.getItem(this.keyToken)`. -/
def AUTH.token (st : Store) : Option Chars := st.token?

/-- Truthiness of a `getItem` result: `null` (absent) and `""` are falsy. -/
def truthyStr : Option Chars → Bool
  | none => false
  | some s => !s.isEmpty

/-- `AUTH.isAuthed` (auth.js line 21): `!!this.user && !!this.token`. -/
def AUTH.isAuthed (st : Store) : Bool :=
  truthy (AUTH.user st) && truthyStr (AUTH.token st)

/-- An identity record per the data model: an `email` attribute plus
arbitrary additional (opaque) profile fields. -/
structure Identity where
  email : Chars
  extra : JSObj

/-- The JavaScript object a login form hands to `AUTH.login`. -/
def idToJS (i : Identity) : JSValue :=
  .obj (.cons "email".data (.str i.email) i.extra)

/-- The two store writes performed by `AUTH.login` (auth.js line 22):
`setItem(keyUser, JSON.stringify(u)); setItem(keyToken, marker)`.  The
session marker is a parameter: `login` computes it as
``btoa(`${u.email}:${Date.now()}`)``, an opaque string whose content is
never inspected by any reader. -/
def AUTH.setSession (i : Identity) (marker : Chars) (_st : Store) : Store :=
  { user? := some (strV (idToJS i)), token? := some marker }

/-- `AUTH.logout` (auth.js line 23): `removeItem` on both keys. -/
def AUTH.clearSession (_st : Store) : Store :=
  { user? := none, token? := none }

theorem user_setSession (i : Identity) (m : Chars) (st : Store) :
    AUTH.user (AUTH.setSession i m st) = normU (idToJS i) := by
  obtain ⟨c, t, hct, _⟩ := strV_head_spec (idToJS i)
  rw [AUTH.user, AUTH.userParsed]
  rw [show AUTH.userRaw (AUTH.setSession i m st) = strV (idToJS i) from by
    rw [AUTH.userRaw, AUTH.setSession]
    rw [show (Store.mk (some (strV (idToJS i))) (some m)).user? = some (strV (idToJS i))
      from rfl]
    rw [hct]
    rfl]
  rw [jsonParse_strV]

/-- C1 (counterexample): the claim "for every identity I and marker M,
set-session(I, M) followed by is-authenticated() yields true" fails at the
concrete marker `M = ""`: the store write succeeds, but `!!this.token` is
false on the stored empty string, so `isAuthed` reports false. -/
theorem C1_counterexample :
    AUTH.isAuthed (AUTH.setSession ⟨"a@b".data, JSObj.nil⟩ [] ⟨none, none⟩) = false := by
  decide

/-- C1 (amended): for every identity I, every non-empty marker M and every
prior store state, set-session(I, M) followed by is-authenticated() yields
true (login's own marker, a base64 string containing `:`, is always
non-empty); and clear-session() followed by is-authenticated() yields
false, regardless of the store's prior contents. -/
theorem C1_session : ∀ (i : Identity) (m : Chars) (st st2 : Store), m ≠ [] →
    AUTH.isAuthed (AUTH.setSession i m st) = true ∧
    AUTH.isAuthed (AUTH.clearSession st2) = false := by
  intro i m st st2 hm
  constructor
  · have hme : m.isEmpty = false := by
      match m with
      | [] => exact absurd rfl hm
      | c :: r => rfl
    rw [AUTH.isAuthed, user_setSession]
    have ht : truthy (normU (idToJS i)) = true := rfl
    rw [ht]
    rw [show AUTH.token (AUTH.setSession i m st) = some m from rfl]
    rw [show truthyStr (some m) = !m.isEmpty from rfl]
    rw [hme]
    rfl
  · rfl

/-- C1 (witness): the amended C1 at a concrete identity, marker and store. -/
theorem C1_session_witness :
    AUTH.isAuthed (AUTH.setSession ⟨"a@b".data, JSObj.nil⟩ ['x'] ⟨none, none⟩) = true ∧
    AUTH.isAuthed (AUTH.clearSession ⟨some ['q'], some ['t']⟩) = false :=
  C1_session ⟨"a@b".data, JSObj.nil⟩ ['x'] ⟨none, none⟩ ⟨some ['q'], some ['t']⟩ (by decide)

/-- C2 (counterexample): the claim "is-authenticated() returns true iff
both the identity record and the session marker are present (and the
identity deserializes to a non-null value)" fails on the state storing
`"false"` under the identity key: both entries are present and the
identity deserializes to the non-null value `false`, yet `isAuthed` is
false, because the code tests truthiness (`!!this.user`), not mere
presence/non-nullness. -/
theorem C2_counterexample :
    AUTH.isAuthed ⟨some falseLit, some ['t']⟩ = false ∧
    jsonParse falseLit = some (JSValue.bool false) ∧ JSValue.bool false ≠ JSValue.null :=
  ⟨rfl, rfl, fun h => JSValue.noConfusion h⟩

/-- C2 (amended): for every store state, is-authenticated() returns true
iff the defensive read of the identity record yields a truthy value (so
the record must be present and deserialize to a truthy, in particular
non-null, value) and the session marker is present and non-empty; in
particular, any state in which either of the two entries is absent yields
false. -/
theorem C2_isAuthed_iff : ∀ st : Store,
    (AUTH.isAuthed st = true ↔
      truthy (AUTH.user st) = true ∧ ∃ t, st.token? = some t ∧ t ≠ []) ∧
    ((st.user? = none ∨ st.token? = none) → AUTH.isAuthed st = false) := by
  intro st
  constructor
  · rw [AUTH.isAuthed, Bool.and_eq_true]
    constructor
    · rintro ⟨h1, h2⟩
      refine ⟨h1, ?_⟩
      match hs : st.token? with
      | none =>
        rw [AUTH.token, hs] at h2
        exact absurd h2 (by decide)
      | some tk =>
        refine ⟨tk, rfl, fun htk => ?_⟩
        subst htk
        rw [AUTH.token, hs] at h2
        exact absurd h2 (by decide)
    · rintro ⟨h1, tk, htk, hne⟩
      refine ⟨h1, ?_⟩
      rw [AUTH.token, htk]
      match tk, hne with
      | c :: r, _ => rfl
  · intro h
    rcases h with h | h
    · have hu : AUTH.user st = JSValue.null := by
        rw [AUTH.user, AUTH.userParsed, AUTH.userRaw, h]
        rfl
      rw [AUTH.isAuthed, hu]
      rfl
    · rw [AUTH.isAuthed, AUTH.token, h]
      rw [show truthyStr none = false from rfl]
      rw [Bool.and_false]

/-- C2 (witness): the amended C2 applied at concrete stores — a state with
only a marker is unauthenticated, and a state holding `"{}"` plus a
non-empty marker is authenticated. -/
theorem C2_isAuthed_iff_witness :
    AUTH.isAuthed ⟨none, some ['t']⟩ = false ∧
    AUTH.isAuthed ⟨some ['{', '}'], some ['t']⟩ = true :=
  ⟨(C2_isAuthed_iff ⟨none, some ['t']⟩).2 (Or.inl rfl),
   (C2_isAuthed_iff ⟨some ['{', '}'], some ['t']⟩).1.2 ⟨rfl, ['t'], rfl, by decide⟩⟩

/-- C3: for every string stored under the identity key that fails to
parse as JSON, the `user` getter returns `null` ("absent") rather than
propagating the deserialization error, and is-authenticated() is
consequently false, whatever the marker entry holds. -/
theorem C3_defensive_read : ∀ (s : Chars) (t : Option Chars), jsonParse s = none →
    AUTH.user ⟨some s, t⟩ = JSValue.null ∧ AUTH.isAuthed ⟨some s, t⟩ = false := by
  intro s t hp
  match s, hp with
  | [], _ => exact ⟨rfl, rfl⟩
  | c :: r, hp =>
    have hu : AUTH.user ⟨some (c :: r), t⟩ = JSValue.null := by
      rw [AUTH.user, AUTH.userParsed]
      rw [show AUTH.userRaw ⟨some (c :: r), t⟩ = c :: r from rfl]
      rw [hp]
    exact ⟨hu, by rw [AUTH.isAuthed, hu]; rfl⟩

/-- C3 (witness): the unparsable stored string `"{"` yields an absent
identity and an unauthenticated state. -/
theorem C3_defensive_read_witness :
    AUTH.user ⟨some ['{'], some ['t']⟩ = JSValue.null ∧
    AUTH.isAuthed ⟨some ['{'], some ['t']⟩ = false :=
  C3_defensive_read ['{'] (some ['t']) rfl

/-! ## Risk badge classification (part_000 lines 69–88) -/

/-- A JavaScript number as the badge handler sees it: a finite value
(modelled as a rational, which is order-faithful for every finite double)
or `NaN`. -/
inductive JNum where
  | nan
  | val (q : ℚ)
deriving DecidableEq, Repr

/-- `Number(s)` on a string: trim whitespace; the empty string coerces to
`0`; otherwise the numeral's value.  Model restriction: only integer
numerals are recognised — any other string yields `NaN`. -/
def strToNum (s : Chars) : JNum :=
  if (skipWs ((skipWs s).reverse)).isEmpty then .val 0
  else
    match parseNum ((skipWs ((skipWs s).reverse)).reverse) with
    | some (n, []) => .val (n : ℚ)
    | _ => .nan

/-- `Number(x)` coercion for the values reachable in the badge handler.
Model restriction: arrays coerce to `NaN` (JavaScript would coerce an
array through its joined string form). -/
def toNumber : JSValue → JNum
  | .null => .val 0
  | .undefined => .nan
  | .bool b => .val (if b then 1 else 0)
  | .num n => .val (n : ℚ)
  | .str s => strToNum s
  | .arr _ => .nan
  | .obj _ => .nan

/-- `score >= q` — false on `NaN`, as every JavaScript NaN comparison is. -/
def jge (a : JNum) (q : ℚ) : Bool :=
  match a with
  | .nan => false
  | .val x => q ≤ x

/-- `score <= q` — false on `NaN`. -/
def jle (a : JNum) (q : ℚ) : Bool :=
  match a with
  | .nan => false
  | .val x => x ≤ q

/-- `score > q` — false on `NaN`. -/
def jgt (a : JNum) (q : ℚ) : Bool :=
  match a with
  | .nan => false
  | .val x => q < x

/-- The badge label computation (part_000 lines 75–84): `label` starts as
`"Low"`, becomes `"Moderate"` when `score >= 6 && score <= 15`, and
`"High"` when `score > 15`. -/
def classify (score : JNum) : Chars :=
  if jge score 6 && jle score 15 then "Moderate".data
  else if jgt score 15 then "High".data
  else "Low".data

/-- The score the handler computes from the parsed response `j`
(part_000 line 74): `Number(j?.risk_score ?? 0)`. -/
def riskScore (j : JSValue) : JNum :=
  toNumber (coalesceZero (optChain j "risk_score".data))

/-- The badge's risk level label for a parsed API response. -/
def badgeLabel (j : JSValue) : Chars :=
  classify (riskScore j)

/-- C8: for every API response whose risk score coerces to a (finite)
number q, the badge classifies it "Low" when q < 6, "Moderate" when
6 ≤ q ≤ 15, and "High" when q > 15. -/
theorem C8_bands : ∀ (j : JSValue) (q : ℚ), riskScore j = .val q →
    (q < 6 → badgeLabel j = "Low".data) ∧
    (6 ≤ q → q ≤ 15 → badgeLabel j = "Moderate".data) ∧
    (15 < q → badgeLabel j = "High".data) := by
  intro j q hq
  have hc : badgeLabel j = classify (.val q) := by rw [badgeLabel, hq]
  refine ⟨fun h => ?_, fun h6 h15 => ?_, fun h => ?_⟩
  · rw [hc, classify]
    split_ifs with hA hB
    · exfalso
      simp only [jge, jle, Bool.and_eq_true, decide_eq_true_eq] at hA
      linarith [hA.1]
    · exfalso
      simp only [jgt, decide_eq_true_eq] at hB
      linarith
    · rfl
  · rw [hc, classify]
    split_ifs with hA hB
    · rfl
    · exact absurd (show (jge (JNum.val q) 6 && jle (JNum.val q) 15) = true by
        simp only [jge, jle, Bool.and_eq_true, decide_eq_true_eq]
        exact ⟨h6, h15⟩) hA
    · exact absurd (show (jge (JNum.val q) 6 && jle (JNum.val q) 15) = true by
        simp only [jge, jle, Bool.and_eq_true, decide_eq_true_eq]
        exact ⟨h6, h15⟩) hA
  · rw [hc, classify]
    split_ifs with hA hB
    · exfalso
      simp only [jge, jle, Bool.and_eq_true, decide_eq_true_eq] at hA
      linarith [hA.2]
    · rfl
    · exact absurd (show jgt (JNum.val q) 15 = true by
        simp only [jgt, decide_eq_true_eq]
        exact h) hB

/-- C8 (witness): the boundary scores from the spec — 5 is "Low", 6 and 15
are "Moderate", 16 is "High" — on concrete API responses. -/
theorem C8_bands_witness :
    badgeLabel (.obj (.cons "risk_score".data (.num 5) .nil)) = "Low".data ∧
    badgeLabel (.obj (.cons "risk_score".data (.num 6) .nil)) = "Moderate".data ∧
    badgeLabel (.obj (.cons "risk_score".data (.num 15) .nil)) = "Moderate".data ∧
    badgeLabel (.obj (.cons "risk_score".data (.num 16) .nil)) = "High".data :=
  ⟨(C8_bands _ 5 (by decide)).1 (by norm_num),
   (C8_bands _ 6 (by decide)).2.1 (by norm_num) (by norm_num),
   (C8_bands _ 15 (by decide)).2.1 (by norm_num) (by norm_num),
   (C8_bands _ 16 (by decide)).2.2 (by norm_num)⟩

/-- C10: for every API response lacking a `risk_score` field (or carrying
`null` there), the handler coerces the score to 0 and labels the badge
"Low"; and whenever the score coerces to NaN, both band comparisons fail
and the label is likewise "Low" — neither case surfaces as an error. -/
theorem C10_nullish_score : ∀ j : JSValue,
    ((optChain j "risk_score".data = .undefined ∨ optChain j "risk_score".data = .null) →
      coalesceZero (optChain j "risk_score".data) = .num 0 ∧ badgeLabel j = "Low".data) ∧
    (riskScore j = .nan → badgeLabel j = "Low".data) := by
  intro j
  constructor
  · intro h
    have hc : coalesceZero (optChain j "risk_score".data) = .num 0 := by
      rcases h with h | h <;> rw [h] <;> rfl
    refine ⟨hc, ?_⟩
    rw [badgeLabel, riskScore, hc]
    decide
  · intro h
    rw [badgeLabel, h]
    decide

/-- C10 (witness): a response with no `risk_score` field labels "Low", as
does one whose `risk_score` is the non-numeric string `"abc"`. -/
theorem C10_nullish_score_witness :
    (coalesceZero (optChain (JSValue.obj .nil) "risk_score".data) = .num 0 ∧
      badgeLabel (JSValue.obj .nil) = "Low".data) ∧
    badgeLabel (.obj (.cons "risk_score".data (.str "abc".data) .nil)) = "Low".data :=
  ⟨(C10_nullish_score (JSValue.obj .nil)).1 (Or.inl rfl),
   (C10_nullish_score (.obj (.cons "risk_score".data (.str "abc".data) .nil))).2 (by decide)⟩

/-! ## DOM model: element/text forests and the selector forms the code uses -/

/-- The element attributes the selectors and markers read: tag name, `id`
attribute and class list. -/
structure ElemData where
  tag : Chars
  idAttr : Chars
  classes : List Chars
deriving DecidableEq, Repr

mutual
/-- A DOM node: an element with children, or a text node. -/
inductive DNode where
  | elem (ed : ElemData) (cs : DForest)
  | text (s : Chars)
deriving DecidableEq, Repr
/-- A list of sibling DOM nodes (e.g. the children of an element, or the
top-level content of the document body). -/
inductive DForest where
  | nil
  | cons (n : DNode) (f : DForest)
deriving DecidableEq, Repr
end

/-- Append a node at the end of a sibling list (`insertAdjacentHTML`
with position `beforeend` / `ParentNode.append`). -/
def fappend : DForest → DNode → DForest
  | .nil, n => .cons n .nil
  | .cons m f, n => .cons m (fappend f n)

/-- A simple CSS selector: optional tag, class and id requirements
(`header`, `.header`, `header.header`, `#pw-nav` and combinations). -/
structure SimpleSel where
  tag? : Option Chars
  class? : Option Chars
  id? : Option Chars

/-- A descendant-combinator selector: ancestor requirements (outermost
first) and the target simple selector. -/
structure Sel where
  anc : List SimpleSel
  target : SimpleSel

/-- Whether an element satisfies a simple selector. -/
def simpleMatches (s : SimpleSel) (d : ElemData) : Bool :=
  (match s.tag? with | none => true | some t => d.tag = t) &&
  (match s.class? with | none => true | some c => d.classes.contains c) &&
  (match s.id? with | none => true | some i => d.idAttr = i)

/-- Greedy matching of ancestor requirements against the actual ancestor
chain (outermost first); greedy scanning is complete for subsequence
matching. -/
def ancMatches : List SimpleSel → List ElemData → Bool
  | [], _ => true
  | _ :: _, [] => false
  | s :: ss, a :: bs => if simpleMatches s a then ancMatches ss bs else ancMatches (s :: ss) bs

/-- Whether an element with the given ancestor chain matches a selector. -/
def selMatches (sel : Sel) (anc : List ElemData) (d : ElemData) : Bool :=
  simpleMatches sel.target d && ancMatches sel.anc anc

mutual
/-- `querySelector` on one node: the first matching element in pre-order,
given the element's ancestor chain. -/
def qsN (sel : Sel) (anc : List ElemData) : DNode → Option DNode
  | .elem ed cs =>
    if selMatches sel anc ed then some (.elem ed cs) else qsF sel (anc ++ [ed]) cs
  | .text _ => none
/-- `querySelector` over a sibling list. -/
def qsF (sel : Sel) (anc : List ElemData) : DForest → Option DNode
  | .nil => none
  | .cons n f =>
    match qsN sel anc n with
    | some m => some m
    | none => qsF sel anc f
end

mutual
/-- Apply `u` to the children of the first element matching `sel`
(pre-order, same traversal as `qsN`); `u` also returns a Boolean report
(used for "was a logout control bound").  `none` when nothing matches. -/
def updN (sel : Sel) (u : DForest → DForest × Bool) (anc : List ElemData) :
    DNode → Option (DNode × Bool)
  | .elem ed cs =>
    if selMatches sel anc ed then some (.elem ed (u cs).1, (u cs).2)
    else
      match updF sel u (anc ++ [ed]) cs with
      | some p => some (.elem ed p.1, p.2)
      | none => none
  | .text _ => none
/-- `updN` over a sibling list. -/
def updF (sel : Sel) (u : DForest → DForest × Bool) (anc : List ElemData) :
    DForest → Option (DForest × Bool)
  | .nil => none
  | .cons n f =>
    match updN sel u anc n with
    | some p => some (.cons p.1 f, p.2)
    | none =>
      match updF sel u anc f with
      | some p => some (.cons n p.1, p.2)
      | none => none
end

/-- The id the injected navigation carries (`id="pw-nav"`), used by the
idempotence guard `host.querySelector('#pw-nav')`. -/
def pwNavId : Chars := "pw-nav".data

mutual
/-- Whether a node's subtree contains an element with id `pw-nav`. -/
def hasMarkerN : DNode → Bool
  | .elem ed cs => ed.idAttr = pwNavId || hasMarkerF cs
  | .text _ => false
/-- `hasMarkerN` over a sibling list. -/
def hasMarkerF : DForest → Bool
  | .nil => false
  | .cons n f => hasMarkerN n || hasMarkerF f
end

mutual
/-- Number of elements with id `pw-nav` in a subtree. -/
def markerCountN : DNode → Nat
  | .elem ed cs => (if ed.idAttr = pwNavId then 1 else 0) + markerCountF cs
  | .text _ => 0
/-- `markerCountN` over a sibling list. -/
def markerCountF : DForest → Nat
  | .nil => 0
  | .cons n f => markerCountN n + markerCountF f
end

mutual
/-- Number of text nodes in a subtree (used to observe destroyed
pre-existing content). -/
def textCountN : DNode → Nat
  | .elem _ cs => textCountF cs
  | .text _ => 1
/-- `textCountN` over a sibling list. -/
def textCountF : DForest → Nat
  | .nil => 0
  | .cons n f => textCountN n + textCountF f
end

mutual
/-- Number of element nodes in a subtree. -/
def elemCountN : DNode → Nat
  | .elem _ cs => 1 + elemCountF cs
  | .text _ => 0
/-- `elemCountN` over a sibling list. -/
def elemCountF : DForest → Nat
  | .nil => 0
  | .cons n f => elemCountN n + elemCountF f
end

/-! ## Scanning attribute values out of markup strings -/

/-- One-pass scanner collecting every `…="value"` occurrence of the
attribute pattern `pat` (e.g. `id="`): `k` is how much of `pat` has been
matched, `g` the partially grabbed value (reversed). -/
def scanGo (pat : Chars) (k : Nat) (g : Option Chars) : Chars → List Chars
  | [] => []
  | c :: r =>
    match g with
    | some cur =>
      if c = '"' then cur.reverse :: scanGo pat 0 none r else scanGo pat 0 (some (c :: cur)) r
    | none =>
      if pat.get? k = some c then
        (if k + 1 = pat.length then scanGo pat 0 (some []) r else scanGo pat (k + 1) none r)
      else if pat.get? 0 = some c then scanGo pat 1 none r
      else scanGo pat 0 none r

/-- All values of the attribute pattern `pat` occurring in `s`. -/
def attrVals (pat s : Chars) : List Chars := scanGo pat 0 none s

def idPat : Chars := ['i', 'd', '=', '"']
def classPat : Chars := ['c', 'l', 'a', 's', 's', '=', '"']

/-- Every `id="…"` value in a markup string, in order. -/
def idsIn (s : Chars) : List Chars := attrVals idPat s

/-- Every `class="…"` value in a markup string, in order. -/
def classesIn (s : Chars) : List Chars := attrVals classPat s

/-- One child element per id declared after the fragment root's own. -/
def anchorsOf : List Chars → DForest
  | [] => .nil
  | i :: is2 => .cons (.elem ⟨"a".data, i, []⟩ .nil) (anchorsOf is2)

/-- The model of the browser parsing injected navigation markup
(`insertAdjacentHTML` / `innerHTML` argument): a single `nav` element
whose id and class are the first `id="…"` / `class="…"` occurrences of
the markup itself, with one child element per further `id="…"`
occurrence.  Whitespace text nodes and non-id-bearing structure are
elided. -/
def fragmentOf (html : Chars) : DNode :=
  .elem ⟨"nav".data, (idsIn html).headD [], (classesIn html).take 1⟩
    (anchorsOf (idsIn html).tail)

/-! ## Rendered markup (auth.js navHTML 25–44; part_001 headerHTML 71–92) -/

mutual
/-- JavaScript `String(x)` / template-literal interpolation of a value. -/
def jsToString : JSValue → Chars
  | .null => "null".data
  | .undefined => "undefined".data
  | .bool true => "true".data
  | .bool false => "false".data
  | .num n => intChars n
  | .str s => s
  | .arr xs => jsArrString xs
  | .obj _ => "[object Object]".data
/-- Array-to-string: elements joined with `,`; `null`/`undefined`
elements become empty. -/
def jsArrString : JSArr → Chars
  | .nil => []
  | .cons .null .nil => []
  | .cons .undefined .nil => []
  | .cons v .nil => jsToString v
  | .cons .null (.cons w xs) => ',' :: jsArrString (.cons w xs)
  | .cons .undefined (.cons w xs) => ',' :: jsArrString (.cons w xs)
  | .cons v (.cons w xs) => jsToString v ++ ',' :: jsArrString (.cons w xs)
end

/-- The interpolated account label: `this.user?.email || 'Account'` — the
email's string form when that value is truthy, the literal `Account`
otherwise. -/
def emailDisp (st : Store) : Chars :=
  if truthy (optChain (AUTH.user st) "email".data) then
    jsToString (optChain (AUTH.user st) "email".data)
  else "Account".data

def navAuthPre : Chars :=
  "\n      <nav class=\"pw-nav\" id=\"pw-nav\">\n        <a href=\"index.html\">Home</a>\n        <a href=\"/portal/patient/login.html\">Patient Portal</a>\n        <a href=\"/portal/doctor/login.html\">Doctor Portal</a>\n        <a href=\"javascript:void(0)\" id=\"pw-account\">".data

def navAuthPost : Chars :=
  "</a>\n        <a href=\"javascript:void(0)\" id=\"pw-logout\">Logout</a>\n      </nav>".data

def navAnon : Chars :=
  "\n      <nav class=\"pw-nav\" id=\"pw-nav\">\n        <a href=\"index.html\">Home</a>\n        <a href=\"/portal/patient/login.html\">Patient Portal</a>\n        <a href=\"/portal/doctor/login.html\">Doctor Portal</a>\n      </nav>".data

/-- `AUTH.navHTML` (auth.js 25–44). -/
def AUTH.navHTML (st : Store) : Chars :=
  if AUTH.isAuthed st then navAuthPre ++ emailDisp st ++ navAuthPost else navAnon

def hdrAuthPre : Chars :=
  "\n          <nav class=\"nav\">\n            <a href=\"index.html\">Home</a>\n            <a href=\"eldercare-patient.html\">Patient Portal</a>\n            <span class=\"sep\"></span>\n            <a href=\"javascript:void(0)\" id=\"pw-account\">".data

def hdrAuthPost : Chars :=
  "</a>\n            <a href=\"javascript:void(0)\" id=\"pw-logout\">Logout</a>\n          </nav>".data

def hdrAnon : Chars :=
  "\n          <nav class=\"nav\">\n            <a href=\"index.html\">Home</a>\n            <a href=\"eldercare-patient.html\">Patient Portal</a>\n            <span class=\"sep\"></span>\n            <a href=\"login.html\">Login</a>\n            <a href=\"register.html\">Register</a>\n          </nav>".data

/-- `headerHTML` (part_001 71–92). -/
def AUTH.headerHTML (st : Store) : Chars :=
  if AUTH.isAuthed st then hdrAuthPre ++ emailDisp st ++ hdrAuthPost else hdrAnon

/-! ## Mounting (auth.js mountNav 46–64; part_001 mountHeader 93–103) -/

/-- `'.header .header-inner'` (auth.js line 50). -/
def selHostA : Sel := ⟨[⟨none, some "header".data, none⟩], ⟨none, some "header-inner".data, none⟩⟩

/-- `'header.header .header-inner'` (auth.js line 51). -/
def selHostB : Sel :=
  ⟨[⟨some "header".data, some "header".data, none⟩], ⟨none, some "header-inner".data, none⟩⟩

/-- `'header.header'` (auth.js line 52; also part_001 line 94). -/
def selHostC : Sel := ⟨[], ⟨some "header".data, some "header".data, none⟩⟩

/-- `'#pw-logout'`. -/
def selLogout : Sel := ⟨[], ⟨none, none, some "pw-logout".data⟩⟩

/-- The work `mountNav` performs on a located host (auth.js 57–63): if a
`#pw-nav` marker already exists among the host's descendants, return
unchanged (and bind nothing — the code `return`s before the listener);
otherwise append the parsed `navHTML` fragment at the end and report
whether a `#pw-logout` control is now present in the host. -/
def hostUpd (st : Store) (cs : DForest) : DForest × Bool :=
  if hasMarkerF cs then (cs, false)
  else
    (fappend cs (fragmentOf (AUTH.navHTML st)),
     (qsF selLogout [] (fappend cs (fragmentOf (AUTH.navHTML st)))).isSome)

/-- Host location and mounting, with the code's selector priority
(auth.js 49–52): `querySelector(A) || querySelector(B) || querySelector(C)`. -/
def mountTry (st : Store) (d : DForest) : Option (DForest × Bool) :=
  match updF selHostA (hostUpd st) [] d with
  | some p => some p
  | none =>
    match updF selHostB (hostUpd st) [] d with
    | some p => some p
    | none => updF selHostC (hostUpd st) [] d

/-- A page: the shared credential store, the document body's node forest,
and whether a logout click handler has been bound. -/
structure Page where
  store : Store
  doc : DForest
  bound : Bool
deriving DecidableEq, Repr

/-- `AUTH.mountNav` (auth.js 46–64): locate the host (no-op when absent),
return early when a marker exists, else append the rendered nav and bind
the logout control when present. -/
def mountNavPage (p : Page) : Page :=
  match mountTry p.store p.doc with
  | none => p
  | some q => { store := p.store, doc := q.1, bound := p.bound || q.2 }

/-- The document transformation `mountNav` performs. -/
def mountNavDoc (st : Store) (d : DForest) : DForest :=
  (mountNavPage ⟨st, d, false⟩).doc

/-- `mountHeader` (part_001 93–103): find `header.header`; when absent,
CREATE a `header.header` element and prepend it to the body; then REPLACE
the host's children with the parsed `headerHTML` fragment (`innerHTML`
assignment), and bind logout via a document-wide `getElementById`. -/
def mountHeaderPage (p : Page) : Page :=
  match updF selHostC (fun _ => (.cons (fragmentOf (AUTH.headerHTML p.store)) .nil, true)) []
      p.doc with
  | some q =>
    { store := p.store, doc := q.1, bound := p.bound || (qsF selLogout [] q.1).isSome }
  | none =>
    { store := p.store,
      doc := .cons (.elem ⟨"header".data, [], ["header".data]⟩
        (.cons (fragmentOf (AUTH.headerHTML p.store)) .nil)) p.doc,
      bound := p.bound || (qsF selLogout []
        (DForest.cons (.elem ⟨"header".data, [], ["header".data]⟩
          (.cons (fragmentOf (AUTH.headerHTML p.store)) .nil)) p.doc)).isSome }

/-- The document transformation `mountHeader` performs. -/
def mountHeaderDoc (st : Store) (d : DForest) : DForest :=
  (mountHeaderPage ⟨st, d, false⟩).doc

/-- The click handler bound on the logout control (auth.js line 63):
`this.logout(); location.href = 'login.html'` — when bound, clears the
session; the redirect has no store effect. -/
def clickLogout (p : Page) : Page :=
  if p.bound then { p with store := AUTH.clearSession p.store } else p

/-- The host `mountNav` would use: `querySelector(A) || querySelector(B)
|| querySelector(C)`. -/
def findHost (d : DForest) : Option DNode :=
  match qsF selHostA [] d with
  | some n => some n
  | none =>
    match qsF selHostB [] d with
    | some n => some n
    | none => qsF selHostC [] d

/-- Whether the located host already contains a `#pw-nav` marker among
its descendants. -/
def hostHasMarker (d : DForest) : Bool :=
  match findHost d with
  | some (.elem _ cs) => hasMarkerF cs
  | _ => false

/-! ## Traversal lemmas -/

mutual
/-- No element in the subtree satisfies even the target simple selector
(so the subtree can never contribute a `querySelector` match, whatever
its ancestors are). -/
def avoidsN (sel : Sel) : DNode → Bool
  | .elem ed cs => !simpleMatches sel.target ed && avoidsF sel cs
  | .text _ => true
/-- `avoidsN` over a sibling list. -/
def avoidsF (sel : Sel) : DForest → Bool
  | .nil => true
  | .cons n f => avoidsN sel n && avoidsF sel f
end

theorem qsF_fappend (sel : Sel) (anc : List ElemData) :
    ∀ (f : DForest) (n : DNode), qsF sel anc (fappend f n)
      = (match qsF sel anc f with | some m => some m | none => qsN sel anc n)
  | .nil, n => by
    rw [fappend, qsF, qsF, qsF]
    cases qsN sel anc n <;> rfl
  | .cons m f, n => by
    rw [fappend]
    rw [qsF, qsF]
    cases hq : qsN sel anc m with
    | some k => rfl
    | none => rw [qsF_fappend sel anc f n]

mutual
theorem qsN_avoids (sel : Sel) : ∀ (n : DNode) (anc : List ElemData),
    avoidsN sel n = true → qsN sel anc n = none
  | .elem ed cs, anc => by
    intro h
    rw [avoidsN, Bool.and_eq_true] at h
    have ht : simpleMatches sel.target ed = false := by
      rcases h with ⟨h1, _⟩
      cases hs : simpleMatches sel.target ed
      · rfl
      · rw [hs] at h1; exact absurd h1 (by decide)
    rw [qsN]
    rw [if_neg (by rw [selMatches, ht]; simp)]
    exact qsF_avoids sel cs (anc ++ [ed]) h.2
  | .text s, anc => fun _ => rfl
theorem qsF_avoids (sel : Sel) : ∀ (f : DForest) (anc : List ElemData),
    avoidsF sel f = true → qsF sel anc f = none
  | .nil, anc => fun _ => rfl
  | .cons n f, anc => by
    intro h
    rw [avoidsF, Bool.and_eq_true] at h
    rw [qsF, qsN_avoids sel n anc h.1]
    exact qsF_avoids sel f anc h.2
end

mutual
theorem qsN_none_iff (sel : Sel) (u : DForest → DForest × Bool) :
    ∀ (n : DNode) (anc : List ElemData),
      (qsN sel anc n = none ↔ updN sel u anc n = none)
  | .elem ed cs, anc => by
    by_cases hm : selMatches sel anc ed = true
    · rw [qsN, updN, if_pos hm, if_pos hm]
      simp
    · rw [qsN, updN, if_neg hm, if_neg hm]
      have ih := qsF_none_iff sel u cs (anc ++ [ed])
      constructor
      · intro hq
        rw [ih.1 hq]
      · intro hu2
        cases hu : updF sel u (anc ++ [ed]) cs with
        | none => exact ih.2 hu
        | some p => rw [hu] at hu2; exact absurd hu2 (by simp)
  | .text s, anc => by
    rw [qsN, updN]
    exact ⟨fun _ => rfl, fun _ => rfl⟩
theorem qsF_none_iff (sel : Sel) (u : DForest → DForest × Bool) :
    ∀ (f : DForest) (anc : List ElemData),
      (qsF sel anc f = none ↔ updF sel u anc f = none)
  | .nil, anc => by
    rw [qsF, updF]
    exact ⟨fun _ => rfl, fun _ => rfl⟩
  | .cons n f, anc => by
    have ihn := qsN_none_iff sel u n anc
    have ihf := qsF_none_iff sel u f anc
    rw [qsF, updF]
    constructor
    · intro h
      cases hq : qsN sel anc n with
      | some m => rw [hq] at h; exact absurd h (by simp)
      | none =>
        rw [hq] at h
        rw [ihn.1 hq]
        cases hu : updF sel u anc f with
        | none => rfl
        | some p => rw [ihf.1 h] at hu; exact absurd hu (by simp)
    · intro h
      cases hu : updN sel u anc n with
      | some p => rw [hu] at h; exact absurd h (by simp)
      | none =>
        rw [hu] at h
        rw [ihn.2 hu]
        cases hu2 : updF sel u anc f with
        | some p => rw [hu2] at h; exact absurd h (by simp)
        | none => rw [ihf.2 hu2]
end

theorem hasMarkerF_fappend : ∀ (f : DForest) (n : DNode),
    hasMarkerF (fappend f n) = (hasMarkerF f || hasMarkerN n)
  | .nil, n => by simp [fappend, hasMarkerF]
  | .cons m f, n => by
    rw [fappend, hasMarkerF, hasMarkerF, hasMarkerF_fappend f n, Bool.or_assoc]

theorem scanGo_append_head (pat : Chars) :
    ∀ (a : Chars) (k : Nat) (g : Option Chars) (x : Chars), scanGo pat k g a ≠ [] →
      scanGo pat k g (a ++ x) ≠ [] ∧
      (scanGo pat k g (a ++ x)).headD [] = (scanGo pat k g a).headD [] := by
  intro a
  induction a with
  | nil => intro k g x h; exact absurd rfl h
  | cons c r ih =>
    intro k g x h
    match g with
    | some cur =>
      by_cases hc : c = '"'
      · simp only [List.cons_append, scanGo, hc, if_pos rfl] at h ⊢
        refine ⟨by simp, by simp⟩
      · simp only [List.cons_append, scanGo, if_neg hc] at h ⊢
        exact ih 0 (some (c :: cur)) x h
    | none =>
      by_cases h1 : pat.get? k = some c
      · by_cases h2 : k + 1 = pat.length
        · simp only [List.cons_append, scanGo, if_pos h1, if_pos h2] at h ⊢
          exact ih 0 (some []) x h
        · simp only [List.cons_append, scanGo, if_pos h1, if_neg h2] at h ⊢
          exact ih (k + 1) none x h
      · by_cases h3 : pat.get? 0 = some c
        · simp only [List.cons_append, scanGo, if_neg h1, if_pos h3] at h ⊢
          exact ih 1 none x h
        · simp only [List.cons_append, scanGo, if_neg h1, if_neg h3] at h ⊢
          exact ih 0 none x h

/-- `FExt x d d'`: `d'` arises from `d` by appending `x` at the end of the
child list of exactly one element; all other structure is unchanged. -/
inductive FExt (x : DNode) : DForest → DForest → Prop
  | hereApp (ed : ElemData) (cs : DForest) (f : DForest) :
      FExt x (.cons (.elem ed cs) f) (.cons (.elem ed (fappend cs x)) f)
  | hereIn (ed : ElemData) (cs cs' : DForest) (f : DForest) :
      FExt x cs cs' → FExt x (.cons (.elem ed cs) f) (.cons (.elem ed cs') f)
  | there (n : DNode) (f f' : DForest) : FExt x f f' → FExt x (.cons n f) (.cons n f')

theorem qsF_none_FExt (sel : Sel) (x : DNode) (hx : avoidsN sel x = true)
    {d d' : DForest} (h : FExt x d d') :
    ∀ anc, qsF sel anc d = none → qsF sel anc d' = none := by
  induction h with
  | hereApp ed cs f =>
    intro anc hq
    rw [qsF] at hq ⊢
    cases hqn : qsN sel anc (.elem ed cs) with
    | some m => rw [hqn] at hq; exact absurd hq (by simp)
    | none =>
      rw [hqn] at hq
      have hnew : qsN sel anc (.elem ed (fappend cs x)) = none := by
        rw [qsN] at hqn ⊢
        by_cases hm : selMatches sel anc ed = true
        · rw [if_pos hm] at hqn; exact absurd hqn (by simp)
        · rw [if_neg hm] at hqn ⊢
          rw [qsF_fappend, hqn]
          exact qsN_avoids sel x _ hx
      rw [hnew]
      exact hq
  | hereIn ed cs cs' f hsub ih =>
    intro anc hq
    rw [qsF] at hq ⊢
    cases hqn : qsN sel anc (.elem ed cs) with
    | some m => rw [hqn] at hq; exact absurd hq (by simp)
    | none =>
      rw [hqn] at hq
      have hnew : qsN sel anc (.elem ed cs') = none := by
        rw [qsN] at hqn ⊢
        by_cases hm : selMatches sel anc ed = true
        · rw [if_pos hm] at hqn; exact absurd hqn (by simp)
        · rw [if_neg hm] at hqn ⊢
          exact ih _ hqn
      rw [hnew]
      exact hq
  | there n f f' hsub ih =>
    intro anc hq
    rw [qsF] at hq ⊢
    cases hqn : qsN sel anc n with
    | some m => rw [hqn] at hq; exact absurd hq (by simp)
    | none =>
      rw [hqn] at hq
      exact ih _ hq

mutual
theorem updN_ext (st : Store) (sel : Sel) :
    ∀ (n : DNode) (anc : List ElemData) (p : DNode × Bool),
    updN sel (hostUpd st) anc n = some p →
    p.1 = n ∨ ∃ ed cs cs2, n = .elem ed cs ∧ p.1 = .elem ed cs2 ∧
      (cs2 = fappend cs (fragmentOf (AUTH.navHTML st)) ∨
        FExt (fragmentOf (AUTH.navHTML st)) cs cs2)
  | .elem ed cs, anc, p => by
    intro h
    rw [updN] at h
    by_cases hm : selMatches sel anc ed = true
    · rw [if_pos hm] at h
      have hp := Option.some.inj h
      by_cases hmk : hasMarkerF cs = true
      · left
        have h1 : hostUpd st cs = (cs, false) := by rw [hostUpd, if_pos hmk]
        rw [← hp, h1]
      · right
        have h1 : (hostUpd st cs).1 = fappend cs (fragmentOf (AUTH.navHTML st)) := by
          rw [hostUpd, if_neg hmk]
        refine ⟨ed, cs, fappend cs (fragmentOf (AUTH.navHTML st)), rfl, ?_, Or.inl rfl⟩
        rw [← hp]
        show DNode.elem ed (hostUpd st cs).1 = _
        rw [h1]
    · rw [if_neg hm] at h
      cases hu : updF sel (hostUpd st) (anc ++ [ed]) cs with
      | none => rw [hu] at h; exact absurd h (by simp)
      | some q =>
        rw [hu] at h
        simp only [Option.some.injEq] at h
        rcases updF_ext st sel cs (anc ++ [ed]) q hu with h1 | h2
        · left
          rw [← h]
          show DNode.elem ed q.1 = _
          rw [h1]
        · right
          exact ⟨ed, cs, q.1, rfl, by rw [← h], Or.inr h2⟩
  | .text s, anc, p => by
    intro h
    rw [updN] at h
    exact absurd h (by simp)
theorem updF_ext (st : Store) (sel : Sel) :
    ∀ (f : DForest) (anc : List ElemData) (p : DForest × Bool),
    updF sel (hostUpd st) anc f = some p →
    p.1 = f ∨ FExt (fragmentOf (AUTH.navHTML st)) f p.1
  | .nil, anc, p => by
    intro h
    rw [updF] at h
    exact absurd h (by simp)
  | .cons n f, anc, p => by
    intro h
    rw [updF] at h
    cases hn : updN sel (hostUpd st) anc n with
    | some q =>
      rw [hn] at h
      simp only [Option.some.injEq] at h
      rcases updN_ext st sel n anc q hn with h1 | ⟨ed, cs, cs2, hND, hQ, hOr⟩
      · left
        rw [← h]
        show DForest.cons q.1 f = _
        rw [h1]
      · right
        rw [← h]
        show FExt _ _ (DForest.cons q.1 f)
        subst hND
        rw [hQ]
        rcases hOr with h2 | h2
        · rw [h2]; exact FExt.hereApp ed cs f
        · exact FExt.hereIn ed cs cs2 f h2
    | none =>
      rw [hn] at h
      cases hf : updF sel (hostUpd st) anc f with
      | none => rw [hf] at h; exact absurd h (by simp)
      | some q =>
        rw [hf] at h
        simp only [Option.some.injEq] at h
        rcases updF_ext st sel f anc q hf with h1 | h2
        · left
          rw [← h]
          show DForest.cons n q.1 = _
          rw [h1]
        · right
          rw [← h]
          show FExt _ _ (DForest.cons n q.1)
          exact FExt.there n f q.1 h2
end

theorem navIds_head (st : Store) : (idsIn (AUTH.navHTML st)).headD [] = "pw-nav".data := by
  rw [AUTH.navHTML]
  by_cases h : AUTH.isAuthed st = true
  · rw [if_pos h, idsIn, attrVals, List.append_assoc]
    have h2 := scanGo_append_head idPat navAuthPre 0 none (emailDisp st ++ navAuthPost)
      (by decide)
    rw [h2.2]
    decide
  · rw [if_neg h]
    decide

theorem navClasses_take (st : Store) :
    (classesIn (AUTH.navHTML st)).take 1 = ["pw-nav".data] := by
  rw [AUTH.navHTML]
  by_cases h : AUTH.isAuthed st = true
  · rw [if_pos h, classesIn, attrVals, List.append_assoc]
    have h2 := scanGo_append_head classPat navAuthPre 0 none (emailDisp st ++ navAuthPost)
      (by decide)
    cases hcl : scanGo classPat 0 none (navAuthPre ++ (emailDisp st ++ navAuthPost)) with
    | nil => exact absurd hcl h2.1
    | cons a t =>
      have h3 := h2.2
      rw [hcl] at h3
      have h4 : a = "pw-nav".data := by
        have h5 : (a :: t).headD [] = a := rfl
        rw [h5] at h3
        rw [h3]
        decide
      rw [h4]
      rfl
  · rw [if_neg h]
    decide

theorem frag_marker (st : Store) : hasMarkerN (fragmentOf (AUTH.navHTML st)) = true := by
  have h := navIds_head st
  rw [fragmentOf, hasMarkerN]
  show (decide ((idsIn (AUTH.navHTML st)).headD [] = pwNavId) ||
    hasMarkerF (anchorsOf (idsIn (AUTH.navHTML st)).tail)) = true
  rw [h]
  rfl

theorem anchors_avoid (sel : Sel)
    (hs : ∀ i, simpleMatches sel.target ⟨"a".data, i, []⟩ = false) :
    ∀ l, avoidsF sel (anchorsOf l) = true
  | [] => rfl
  | i :: l => by
    rw [anchorsOf, avoidsF, avoidsN, hs i, anchors_avoid sel hs l]
    rfl

theorem frag_avoidA (st : Store) : avoidsN selHostA (fragmentOf (AUTH.navHTML st)) = true := by
  have hcl := navClasses_take st
  have hsm : simpleMatches selHostA.target
      ⟨"nav".data, (idsIn (AUTH.navHTML st)).headD [],
        (classesIn (AUTH.navHTML st)).take 1⟩ = false := by
    simp [simpleMatches, selHostA, hcl]
  rw [fragmentOf, avoidsN, hsm, anchors_avoid selHostA (fun i => rfl) _]
  rfl

theorem frag_avoidB (st : Store) : avoidsN selHostB (fragmentOf (AUTH.navHTML st)) = true := by
  have hcl := navClasses_take st
  have hsm : simpleMatches selHostB.target
      ⟨"nav".data, (idsIn (AUTH.navHTML st)).headD [],
        (classesIn (AUTH.navHTML st)).take 1⟩ = false := by
    simp [simpleMatches, selHostB, hcl]
  rw [fragmentOf, avoidsN, hsm, anchors_avoid selHostB (fun i => rfl) _]
  rfl

theorem frag_avoidC (st : Store) : avoidsN selHostC (fragmentOf (AUTH.navHTML st)) = true := by
  have hsm : simpleMatches selHostC.target
      ⟨"nav".data, (idsIn (AUTH.navHTML st)).headD [],
        (classesIn (AUTH.navHTML st)).take 1⟩ = false := rfl
  rw [fragmentOf, avoidsN, hsm, anchors_avoid selHostC (fun i => rfl) _]
  rfl

theorem hostUpd_idem (st : Store) (cs : DForest) :
    hostUpd st ((hostUpd st cs).1) = ((hostUpd st cs).1, false) := by
  by_cases hmk : hasMarkerF cs = true
  · have h1 : hostUpd st cs = (cs, false) := by rw [hostUpd, if_pos hmk]
    rw [h1]
    exact h1
  · have h1 : (hostUpd st cs).1 = fappend cs (fragmentOf (AUTH.navHTML st)) := by
      rw [hostUpd, if_neg hmk]
    rw [h1, hostUpd]
    rw [if_pos (by rw [hasMarkerF_fappend, frag_marker st, Bool.or_true])]

mutual
theorem updN_idem (st : Store) (sel : Sel) :
    ∀ (n : DNode) (anc : List ElemData) (p : DNode × Bool),
    updN sel (hostUpd st) anc n = some p →
    updN sel (hostUpd st) anc p.1 = some (p.1, false)
  | .elem ed cs, anc, p => by
    intro h
    rw [updN] at h
    by_cases hm : selMatches sel anc ed = true
    · rw [if_pos hm] at h
      have hp := Option.some.inj h
      rw [← hp]
      show updN sel (hostUpd st) anc (.elem ed (hostUpd st cs).1) = _
      rw [updN, if_pos hm, hostUpd_idem st cs]
    · rw [if_neg hm] at h
      cases hu : updF sel (hostUpd st) (anc ++ [ed]) cs with
      | none => rw [hu] at h; exact absurd h (by simp)
      | some q =>
        rw [hu] at h
        simp only [Option.some.injEq] at h
        rw [← h]
        show updN sel (hostUpd st) anc (.elem ed q.1) = _
        rw [updN, if_neg hm, updF_idem st sel cs (anc ++ [ed]) q hu]
  | .text s, anc, p => by
    intro h
    rw [updN] at h
    exact absurd h (by simp)
theorem updF_idem (st : Store) (sel : Sel) :
    ∀ (f : DForest) (anc : List ElemData) (p : DForest × Bool),
    updF sel (hostUpd st) anc f = some p →
    updF sel (hostUpd st) anc p.1 = some (p.1, false)
  | .nil, anc, p => by
    intro h
    rw [updF] at h
    exact absurd h (by simp)
  | .cons n f, anc, p => by
    intro h
    rw [updF] at h
    cases hn : updN sel (hostUpd st) anc n with
    | some q =>
      rw [hn] at h
      simp only [Option.some.injEq] at h
      rw [← h]
      show updF sel (hostUpd st) anc (.cons q.1 f) = _
      rw [updF, updN_idem st sel n anc q hn]
    | none =>
      rw [hn] at h
      cases hf : updF sel (hostUpd st) anc f with
      | none => rw [hf] at h; exact absurd h (by simp)
      | some q =>
        rw [hf] at h
        simp only [Option.some.injEq] at h
        rw [← h]
        show updF sel (hostUpd st) anc (.cons n q.1) = _
        rw [updF, hn, updF_idem st sel f anc q hf]
end

mutual
theorem updN_marker (st : Store) (sel : Sel) :
    ∀ (n : DNode) (anc : List ElemData) (ed : ElemData) (cs : DForest),
    qsN sel anc n = some (.elem ed cs) → hasMarkerF cs = true →
    updN sel (hostUpd st) anc n = some (n, false)
  | .elem ed0 cs0, anc, ed, cs => by
    intro hq hmk
    rw [qsN] at hq
    rw [updN]
    by_cases hm : selMatches sel anc ed0 = true
    · rw [if_pos hm] at hq
      rw [if_pos hm]
      have h2 := Option.some.inj hq
      injection h2 with hED hCS
      subst hED
      subst hCS
      have hu : hostUpd st cs0 = (cs0, false) := by rw [hostUpd, if_pos hmk]
      rw [hu]
    · rw [if_neg hm] at hq
      rw [if_neg hm]
      rw [updF_marker st sel cs0 (anc ++ [ed0]) ed cs hq hmk]
  | .text s, anc, ed, cs => by
    intro hq _
    rw [qsN] at hq
    exact absurd hq (by simp)
theorem updF_marker (st : Store) (sel : Sel) :
    ∀ (f : DForest) (anc : List ElemData) (ed : ElemData) (cs : DForest),
    qsF sel anc f = some (.elem ed cs) → hasMarkerF cs = true →
    updF sel (hostUpd st) anc f = some (f, false)
  | .nil, anc, ed, cs => by
    intro hq _
    rw [qsF] at hq
    exact absurd hq (by simp)
  | .cons n f, anc, ed, cs => by
    intro hq hmk
    rw [qsF] at hq
    rw [updF]
    cases hn : qsN sel anc n with
    | some m =>
      rw [hn] at hq
      simp only [Option.some.injEq] at hq
      subst hq
      rw [updN_marker st sel n anc ed cs hn hmk]
    | none =>
      rw [hn] at hq
      rw [(qsN_none_iff sel (hostUpd st) n anc).1 hn]
      rw [updF_marker st sel f anc ed cs hq hmk]
end

mutual
theorem qsN_elem (sel : Sel) : ∀ (n : DNode) (anc : List ElemData) (m : DNode),
    qsN sel anc n = some m → ∃ ed cs, m = .elem ed cs
  | .elem ed0 cs0, anc, m => by
    intro h
    rw [qsN] at h
    by_cases hm : selMatches sel anc ed0 = true
    · rw [if_pos hm] at h
      exact ⟨ed0, cs0, (Option.some.inj h).symm⟩
    · rw [if_neg hm] at h
      exact qsF_elem sel cs0 (anc ++ [ed0]) m h
  | .text s, anc, m => by
    intro h
    rw [qsN] at h
    exact absurd h (by simp)
theorem qsF_elem (sel : Sel) : ∀ (f : DForest) (anc : List ElemData) (m : DNode),
    qsF sel anc f = some m → ∃ ed cs, m = .elem ed cs
  | .nil, anc, m => by
    intro h
    rw [qsF] at h
    exact absurd h (by simp)
  | .cons n f, anc, m => by
    intro h
    rw [qsF] at h
    cases hn : qsN sel anc n with
    | some k =>
      rw [hn] at h
      simp only [Option.some.injEq] at h
      subst h
      exact qsN_elem sel n anc k hn
    | none =>
      rw [hn] at h
      exact qsF_elem sel f anc m h
end

theorem mountNavDoc_none (st : Store) (d : DForest) (h : mountTry st d = none) :
    mountNavDoc st d = d := by
  rw [mountNavDoc, mountNavPage, h]

theorem mountNavDoc_some (st : Store) (d : DForest) (p : DForest × Bool)
    (h : mountTry st d = some p) : mountNavDoc st d = p.1 := by
  rw [mountNavDoc, mountNavPage, h]

theorem mountTry_idem (st : Store) (d : DForest) (p : DForest × Bool)
    (h : mountTry st d = some p) : mountTry st p.1 = some (p.1, false) := by
  rw [mountTry] at h
  rw [mountTry]
  cases hA : updF selHostA (hostUpd st) [] d with
  | some q =>
    rw [hA] at h
    simp only [Option.some.injEq] at h
    subst h
    rw [updF_idem st selHostA d [] q hA]
  | none =>
    rw [hA] at h
    have hqA : qsF selHostA [] d = none := (qsF_none_iff selHostA (hostUpd st) d []).2 hA
    cases hB : updF selHostB (hostUpd st) [] d with
    | some q =>
      rw [hB] at h
      simp only [Option.some.injEq] at h
      subst h
      have hqA2 : qsF selHostA [] q.1 = none := by
        rcases updF_ext st selHostB d [] q hB with h1 | h2
        · rw [h1]; exact hqA
        · exact qsF_none_FExt selHostA _ (frag_avoidA st) h2 [] hqA
      rw [(qsF_none_iff selHostA (hostUpd st) q.1 []).1 hqA2]
      rw [updF_idem st selHostB d [] q hB]
    | none =>
      rw [hB] at h
      have hqB : qsF selHostB [] d = none := (qsF_none_iff selHostB (hostUpd st) d []).2 hB
      have hqA2 : qsF selHostA [] p.1 = none := by
        rcases updF_ext st selHostC d [] p h with h1 | h2
        · rw [h1]; exact hqA
        · exact qsF_none_FExt selHostA _ (frag_avoidA st) h2 [] hqA
      have hqB2 : qsF selHostB [] p.1 = none := by
        rcases updF_ext st selHostC d [] p h with h1 | h2
        · rw [h1]; exact hqB
        · exact qsF_none_FExt selHostB _ (frag_avoidB st) h2 [] hqB
      rw [(qsF_none_iff selHostA (hostUpd st) p.1 []).1 hqA2]
      rw [(qsF_none_iff selHostB (hostUpd st) p.1 []).1 hqB2]
      rw [updF_idem st selHostC d [] p h]

/-- C4 (amended): for the shared module's `mountNav`, for every store and
document: if the located host already contains an injected `#pw-nav`
marker, `mountNav` returns the document unchanged (without re-rendering);
and mounting twice equals mounting once, so repeated invocation never
duplicates the injected navigation.  (The page-embedded `mountHeader`
variant instead re-renders unconditionally — see the counterexample.) -/
theorem C4_mount_idem : ∀ (st : Store) (d : DForest),
    (hostHasMarker d = true → mountNavDoc st d = d) ∧
    mountNavDoc st (mountNavDoc st d) = mountNavDoc st d := by
  intro st d
  constructor
  · intro hmk
    rw [hostHasMarker, findHost] at hmk
    cases hA : qsF selHostA [] d with
    | some n =>
      obtain ⟨ed, cs, hn⟩ := qsF_elem selHostA d [] n hA
      subst hn
      rw [hA] at hmk
      have hmk2 : hasMarkerF cs = true := hmk
      have hu := updF_marker st selHostA d [] ed cs hA hmk2
      rw [mountNavDoc, mountNavPage, mountTry, hu]
    | none =>
      rw [hA] at hmk
      cases hB : qsF selHostB [] d with
      | some n =>
        obtain ⟨ed, cs, hn⟩ := qsF_elem selHostB d [] n hB
        subst hn
        rw [hB] at hmk
        have hmk2 : hasMarkerF cs = true := hmk
        have hu := updF_marker st selHostB d [] ed cs hB hmk2
        rw [mountNavDoc, mountNavPage, mountTry,
          (qsF_none_iff selHostA (hostUpd st) d []).1 hA, hu]
      | none =>
        rw [hB] at hmk
        cases hC : qsF selHostC [] d with
        | some n =>
          obtain ⟨ed, cs, hn⟩ := qsF_elem selHostC d [] n hC
          subst hn
          rw [hC] at hmk
          have hmk2 : hasMarkerF cs = true := hmk
          have hu := updF_marker st selHostC d [] ed cs hC hmk2
          rw [mountNavDoc, mountNavPage, mountTry,
            (qsF_none_iff selHostA (hostUpd st) d []).1 hA,
            (qsF_none_iff selHostB (hostUpd st) d []).1 hB, hu]
        | none =>
          rw [hC] at hmk
          exact absurd hmk (by simp)
  · cases hT : mountTry st d with
    | none =>
      rw [mountNavDoc_none st d hT]
      exact mountNavDoc_none st d hT
    | some p =>
      rw [mountNavDoc_some st d p hT]
      rw [mountNavDoc_some st p.1 (p.1, false) (mountTry_idem st d p hT)]

/-- C4 (witness): the amended C4 at a concrete document whose host
already carries the marker, and idempotence observed concretely. -/
theorem C4_mount_idem_witness :
    mountNavDoc ⟨none, none⟩
      (.cons (.elem ⟨"header".data, [], ["header".data]⟩
        (.cons (.elem ⟨"nav".data, "pw-nav".data, []⟩ .nil) .nil)) .nil)
    = (.cons (.elem ⟨"header".data, [], ["header".data]⟩
        (.cons (.elem ⟨"nav".data, "pw-nav".data, []⟩ .nil) .nil)) .nil) :=
  (C4_mount_idem ⟨none, none⟩ _).1 (by decide)

set_option maxRecDepth 100000 in
/-- C4 (counterexample): the claim covers `mountHeader` (part_001
93–103) as well, but `mountHeader` does not return without re-rendering
when a marker exists: it replaces the host's children outright, here
destroying the existing `#pw-nav` marker instead of leaving exactly one. -/
theorem C4_counterexample :
    markerCountF (mountHeaderDoc ⟨none, none⟩
      (.cons (.elem ⟨"header".data, [], ["header".data]⟩
        (.cons (.elem ⟨"nav".data, "pw-nav".data, []⟩ .nil) .nil)) .nil)) = 0 ∧
    markerCountF
      (.cons (.elem ⟨"header".data, [], ["header".data]⟩
        (.cons (.elem ⟨"nav".data, "pw-nav".data, []⟩ .nil) .nil)) .nil) = 1 := by
  constructor
  · decide
  · decide

/-- C5 (amended): for the shared module's `mountNav`, whenever none of
the three candidate host selectors matches, mounting is a no-op: the
document is returned unchanged and nothing is created.  (`mountHeader`
instead creates and prepends a host — see the counterexample.) -/
theorem C5_no_host : ∀ (st : Store) (d : DForest),
    qsF selHostA [] d = none → qsF selHostB [] d = none → qsF selHostC [] d = none →
    mountNavDoc st d = d := by
  intro st d hA hB hC
  rw [mountNavDoc, mountNavPage, mountTry,
    (qsF_none_iff selHostA (hostUpd st) d []).1 hA,
    (qsF_none_iff selHostB (hostUpd st) d []).1 hB,
    (qsF_none_iff selHostC (hostUpd st) d []).1 hC]

/-- C5 (witness): mounting into the empty document changes nothing. -/
theorem C5_no_host_witness : mountNavDoc ⟨none, none⟩ .nil = .nil :=
  C5_no_host ⟨none, none⟩ .nil rfl rfl rfl

set_option maxRecDepth 100000 in
/-- C5 (counterexample): the claim covers `mountHeader` (part_001
94–99) as well, but on a document with no host `mountHeader` is not a
no-op: it creates a `header.header` element (with the nav fragment
inside) and prepends it — two elements appear in the empty document. -/
theorem C5_counterexample :
    elemCountF (mountHeaderDoc ⟨none, none⟩ .nil) = 2 ∧ elemCountF .nil = 0 := by
  constructor
  · decide
  · decide

/-- C6 (amended): the shared module's `mountNav` is append-only: for
every store and document it either leaves the document unchanged or
extends exactly one element's child list by appending the rendered
navigation fragment at its end, leaving every pre-existing node — in
particular every pre-existing child of the host — unchanged.
(`mountHeader` instead replaces the host's content — see the
counterexample.) -/
theorem C6_append_only : ∀ (st : Store) (d : DForest),
    mountNavDoc st d = d ∨
    FExt (fragmentOf (AUTH.navHTML st)) d (mountNavDoc st d) := by
  intro st d
  cases hT : mountTry st d with
  | none => exact Or.inl (mountNavDoc_none st d hT)
  | some p =>
    rw [mountNavDoc_some st d p hT]
    rw [mountTry] at hT
    cases hA : updF selHostA (hostUpd st) [] d with
    | some q =>
      rw [hA] at hT
      simp only [Option.some.injEq] at hT
      subst hT
      exact updF_ext st selHostA d [] q hA
    | none =>
      rw [hA] at hT
      cases hB : updF selHostB (hostUpd st) [] d with
      | some q =>
        rw [hB] at hT
        simp only [Option.some.injEq] at hT
        subst hT
        exact updF_ext st selHostB d [] q hB
      | none =>
        rw [hB] at hT
        exact updF_ext st selHostC d [] p hT

set_option maxRecDepth 100000 in
/-- C6 (counterexample): the claim covers `mountHeader` (part_001 line
100) as well, but `innerHTML` assignment is not append-only: mounting
into a header that holds a pre-existing text child (a logo line)
destroys that child. -/
theorem C6_counterexample :
    textCountF (mountHeaderDoc ⟨none, none⟩
      (.cons (.elem ⟨"header".data, [], ["header".data]⟩
        (.cons (.text "logo".data) .nil)) .nil)) = 0 ∧
    textCountF
      (.cons (.elem ⟨"header".data, [], ["header".data]⟩
        (.cons (.text "logo".data) .nil)) .nil) = 1 := by
  constructor
  · decide
  · decide

/-- C9: mounting never writes the credential store: both `mountNav` and
`mountHeader` leave `pw_user`/`pw_token` exactly as they were; only the
logout control's click handler mutates the store (clearing the session
when a handler was bound, and doing nothing otherwise). -/
theorem C9_mount_frames_store : ∀ p : Page,
    (mountNavPage p).store = p.store ∧
    (mountHeaderPage p).store = p.store ∧
    (clickLogout p).store = (if p.bound then AUTH.clearSession p.store else p.store) := by
  intro p
  refine ⟨?_, ?_, ?_⟩
  · rw [mountNavPage]
    cases mountTry p.store p.doc <;> rfl
  · rw [mountHeaderPage]
    cases updF selHostC
      (fun _ => (.cons (fragmentOf (AUTH.headerHTML p.store)) .nil, true)) [] p.doc <;> rfl
  · rw [clickLogout]
    by_cases h : p.bound = true
    · rw [if_pos h, if_pos h]
    · rw [if_neg h, if_neg h]

/-! ## Substring observations on rendered markup -/

/-- Contiguous-substring test (`String.prototype.includes`). -/
def hasSub (s p : Chars) : Bool :=
  if startsW p s then true
  else
    match s with
    | [] => false
    | _ :: t => hasSub t p

theorem startsW_append (p : Chars) : ∀ (a b : Chars), startsW p a = true →
    startsW p (a ++ b) = true := by
  induction p with
  | nil => intro a b _; rfl
  | cons c ps ih =>
    intro a b h
    match a with
    | [] => exact absurd h (by rw [startsW]; decide)
    | d :: a2 =>
      rw [startsW] at h
      rw [List.cons_append, startsW]
      rw [Bool.and_eq_true] at h ⊢
      exact ⟨h.1, ih a2 b h.2⟩

theorem hasSub_here (p b : Chars) : hasSub (p ++ b) p = true := by
  rw [hasSub.eq_def, if_pos (startsW_self_append p b)]

theorem hasSub_append_left : ∀ (a b p : Chars), hasSub a p = true → hasSub (a ++ b) p = true
  | [], b, p => by
    intro h
    rw [hasSub.eq_def] at h
    by_cases hs : startsW p [] = true
    · rw [hasSub.eq_def, if_pos (startsW_append p [] b hs)]
    · rw [if_neg hs] at h
      exact absurd h (Bool.noConfusion)
  | c :: a2, b, p => by
    intro h
    by_cases hs : startsW p (c :: a2) = true
    · have hs3 : startsW p (c :: (a2 ++ b)) = true := startsW_append p (c :: a2) b hs
      rw [List.cons_append, hasSub.eq_def, if_pos hs3]
    · rw [hasSub.eq_def, if_neg hs] at h
      have h2 : hasSub a2 p = true := h
      rw [List.cons_append, hasSub.eq_def]
      by_cases hs2 : startsW p (c :: (a2 ++ b)) = true
      · rw [if_pos hs2]
      · rw [if_neg hs2]
        exact hasSub_append_left a2 b p h2

theorem hasSub_append_right : ∀ (a b p : Chars), hasSub b p = true → hasSub (a ++ b) p = true
  | [], b, p => fun h => h
  | c :: a2, b, p => by
    intro h
    rw [List.cons_append, hasSub.eq_def]
    by_cases hs : startsW p (c :: (a2 ++ b)) = true
    · rw [if_pos hs]
    · rw [if_neg hs]
      exact hasSub_append_right a2 b p h

theorem hasSub_mid (a p b : Chars) : hasSub (a ++ (p ++ b)) p = true :=
  hasSub_append_right a (p ++ b) p (hasSub_here p b)

def homeLink : Chars := "href=\"index.html\">Home</a>".data
def patientLinkNav : Chars := "href=\"/portal/patient/login.html\">Patient Portal</a>".data
def patientLinkHdr : Chars := "href=\"eldercare-patient.html\">Patient Portal</a>".data
def logoutCtl : Chars := "id=\"pw-logout\">Logout</a>".data
def accountPre : Chars := "id=\"pw-account\">".data
def loginLink : Chars := "href=\"login.html\">Login</a>".data
def registerLink : Chars := "href=\"register.html\">Register</a>".data
def closeA : Chars := "</a>".data

def navAuthCut : Chars :=
  "\n      <nav class=\"pw-nav\" id=\"pw-nav\">\n        <a href=\"index.html\">Home</a>\n        <a href=\"/portal/patient/login.html\">Patient Portal</a>\n        <a href=\"/portal/doctor/login.html\">Doctor Portal</a>\n        <a href=\"javascript:void(0)\" ".data

def navAuthPostTail : Chars :=
  "\n        <a href=\"javascript:void(0)\" id=\"pw-logout\">Logout</a>\n      </nav>".data

def hdrAuthCut : Chars :=
  "\n          <nav class=\"nav\">\n            <a href=\"index.html\">Home</a>\n            <a href=\"eldercare-patient.html\">Patient Portal</a>\n            <span class=\"sep\"></span>\n            <a href=\"javascript:void(0)\" ".data

def hdrAuthPostTail : Chars :=
  "\n            <a href=\"javascript:void(0)\" id=\"pw-logout\">Logout</a>\n          </nav>".data

set_option maxRecDepth 100000 in
theorem navAuthPre_split : navAuthPre = navAuthCut ++ accountPre := by decide

set_option maxRecDepth 100000 in
theorem navAuthPost_split : navAuthPost = closeA ++ navAuthPostTail := by decide

set_option maxRecDepth 100000 in
theorem hdrAuthPre_split : hdrAuthPre = hdrAuthCut ++ accountPre := by decide

set_option maxRecDepth 100000 in
theorem hdrAuthPost_split : hdrAuthPost = closeA ++ hdrAuthPostTail := by decide

theorem navHTML_authed (st : Store) (h : AUTH.isAuthed st = true) :
    AUTH.navHTML st = navAuthPre ++ emailDisp st ++ navAuthPost := by
  rw [AUTH.navHTML]; exact if_pos h

theorem headerHTML_authed (st : Store) (h : AUTH.isAuthed st = true) :
    AUTH.headerHTML st = hdrAuthPre ++ emailDisp st ++ hdrAuthPost := by
  rw [AUTH.headerHTML]; exact if_pos h

theorem navHTML_anon (st : Store) (h : AUTH.isAuthed st = false) :
    AUTH.navHTML st = navAnon := by
  rw [AUTH.navHTML, h]; exact if_neg (by decide)

theorem headerHTML_anon (st : Store) (h : AUTH.isAuthed st = false) :
    AUTH.headerHTML st = hdrAnon := by
  rw [AUTH.headerHTML, h]; exact if_neg (by decide)

/-- The stored record whose email field is present but empty:
the characters of the JSON text for an object with email set to
the empty string. -/
def emptyEmailUser : Chars := ['{', '"', 'e', 'm', 'a', 'i', 'l', '"', ':', '"', '"', '}']

set_option maxRecDepth 400000 in
/-- C7 (counterexample): the not-authenticated branch of `navHTML`
(auth.js 25–44) renders only the three plain portal links — it contains
neither a login link nor a register link, so the claim that the
not-authenticated markup "contains login and register links" fails for
this renderer; and in the authenticated case the account label is not
always the identity's email: with an email field present but empty, the
`||` fallback substitutes the literal `Account` for the (empty) email. -/
theorem C7_counterexample :
    hasSub (AUTH.navHTML ⟨none, none⟩) loginLink = false ∧
    hasSub (AUTH.navHTML ⟨none, none⟩) registerLink = false ∧
    AUTH.isAuthed ⟨some emptyEmailUser, some ['t']⟩ = true ∧
    optChain (AUTH.user ⟨some emptyEmailUser, some ['t']⟩) "email".data = JSValue.str [] ∧
    emailDisp ⟨some emptyEmailUser, some ['t']⟩ = "Account".data := by
  decide

set_option maxRecDepth 400000 in
/-- C7 (amended): for every store state, in the authenticated case both
renderers (`navHTML` of auth.js and `headerHTML` of part_001) produce
markup containing a home link, a patient-portal link, the account label
`id="pw-account">` followed by the email display (the email's string
form when truthy, the literal `Account` otherwise) and the closing tag,
and a logout control; in the not-authenticated case `headerHTML`
contains login and register links while `navHTML` contains neither, and
neither renderer emits the account label or the logout control. -/
theorem C7_render : ∀ st : Store,
    (AUTH.isAuthed st = true →
      hasSub (AUTH.navHTML st) homeLink = true ∧
      hasSub (AUTH.navHTML st) patientLinkNav = true ∧
      hasSub (AUTH.navHTML st) (accountPre ++ (emailDisp st ++ closeA)) = true ∧
      hasSub (AUTH.navHTML st) logoutCtl = true ∧
      hasSub (AUTH.headerHTML st) homeLink = true ∧
      hasSub (AUTH.headerHTML st) patientLinkHdr = true ∧
      hasSub (AUTH.headerHTML st) (accountPre ++ (emailDisp st ++ closeA)) = true ∧
      hasSub (AUTH.headerHTML st) logoutCtl = true) ∧
    (AUTH.isAuthed st = false →
      hasSub (AUTH.headerHTML st) loginLink = true ∧
      hasSub (AUTH.headerHTML st) registerLink = true ∧
      hasSub (AUTH.navHTML st) loginLink = false ∧
      hasSub (AUTH.navHTML st) registerLink = false ∧
      hasSub (AUTH.navHTML st) accountPre = false ∧
      hasSub (AUTH.navHTML st) logoutCtl = false ∧
      hasSub (AUTH.headerHTML st) accountPre = false ∧
      hasSub (AUTH.headerHTML st) logoutCtl = false) := by
  intro st
  constructor
  · intro h
    rw [navHTML_authed st h, headerHTML_authed st h]
    refine ⟨?_, ?_, ?_, ?_, ?_, ?_, ?_, ?_⟩
    · exact hasSub_append_left _ _ _ (hasSub_append_left _ _ _ (by decide))
    · exact hasSub_append_left _ _ _ (hasSub_append_left _ _ _ (by decide))
    · rw [show navAuthPre ++ emailDisp st ++ navAuthPost
          = navAuthCut ++ ((accountPre ++ (emailDisp st ++ closeA)) ++ navAuthPostTail) from by
        rw [navAuthPre_split, navAuthPost_split]
        simp [List.append_assoc]]
      exact hasSub_mid _ _ _
    · exact hasSub_append_right _ _ _ (by decide)
    · exact hasSub_append_left _ _ _ (hasSub_append_left _ _ _ (by decide))
    · exact hasSub_append_left _ _ _ (hasSub_append_left _ _ _ (by decide))
    · rw [show hdrAuthPre ++ emailDisp st ++ hdrAuthPost
          = hdrAuthCut ++ ((accountPre ++ (emailDisp st ++ closeA)) ++ hdrAuthPostTail) from by
        rw [hdrAuthPre_split, hdrAuthPost_split]
        simp [List.append_assoc]]
      exact hasSub_mid _ _ _
    · exact hasSub_append_right _ _ _ (by decide)
  · intro h
    rw [navHTML_anon st h, headerHTML_anon st h]
    exact ⟨by decide, by decide, by decide, by decide, by decide, by decide, by decide,
      by decide⟩

set_option maxRecDepth 400000 in
/-- C7 (witness): the amended C7 applied at a concrete authenticated
store (identity record without an email field, non-empty marker) and at
the empty store. -/
theorem C7_render_witness :
    hasSub (AUTH.navHTML ⟨some ['{', '}'], some ['t']⟩) logoutCtl = true ∧
    hasSub (AUTH.headerHTML ⟨none, none⟩) registerLink = true :=
  ⟨((C7_render ⟨some ['{', '}'], some ['t']⟩).1 (by decide)).2.2.2.1,
   ((C7_render ⟨none, none⟩).2 (by decide)).2.1⟩
